import Mathlib

/-!
# Verification of the texture-atlas core of `vulkano_experiment`

A shallow embedding, in Lean 4, of the rectangle packer
(`gfx_lib/src/graphics/image/atlas/rect_solver.rs`), the `next_pot` helper
(`gfx_lib/src/utils/mod.rs`), the atlas builder / texture-region layer
(`gfx_lib/src/graphics/image/atlas/mod.rs`) and the async loader primitive
(`gfx_lib/src/sync/loader.rs`), together with theorems settling the spec's
claims about them.

Conventions of the embedding:
* Rust `u32` values are modelled as `Nat`; every `u32` addition,
  multiplication, subtraction and left shift performed by the source is
  modelled with an explicit wrap modulo `2^32` (`add32`, `mul32`, `sub32`),
  matching release-mode wrapping semantics.
* `f32` operations of the source (`as f32`, `sqrt`, `powf`, `as u32`) are
  modelled exactly as integer computations; see the doc comments of
  `roundF32`, `sqrtF32U32` and `pow2u32`.
* A Rust loop that may not terminate is modelled with fuel returning
  `Option` (`none` = the source diverges); everything else is structural.
-/

namespace VulkanoAtlas

set_option maxRecDepth 16384

/-- The `u32` modulus `2^32`. -/
def M : Nat := 2 ^ 32

/-- Wrapping `u32` addition. -/
def add32 (a b : Nat) : Nat := (a + b) % M

/-- Wrapping `u32` multiplication. -/
def mul32 (a b : Nat) : Nat := (a * b) % M

/-- Wrapping `u32` subtraction (for representable arguments `a b < 2^32`). -/
def sub32 (a b : Nat) : Nat := (a + (M - b % M)) % M

/-- Source `rect_solver.rs` lines 7-12: rectangle with key identifier.
`pos`/`size` are the `[u32; 2]` fields, `rotated` marks a 90° CW rotation. -/
structure Rect (K : Type) where
  key : K
  pos : Nat × Nat
  size : Nat × Nat
  rotated : Bool
deriving DecidableEq

/-- Source `rect_solver.rs` lines 18-25: `Rect::new` sets `pos = [0,0]`, `rotated = false`. -/
def Rect.new {K : Type} (key : K) (w h : Nat) : Rect K :=
  { key := key, pos := (0, 0), size := (w, h), rotated := false }

/-- Source `rect_solver.rs` lines 29-33: solver errors. -/
inductive SolverError where
  | imageIsTooBig
  | areaIsTooBig
  | cannotFitOnOnePage (idx : Nat)
deriving DecidableEq

/-- Source `rect_solver.rs` line 52: empty space that a rect can be put into. -/
structure Space where
  pos : Nat × Nat
  size : Nat × Nat
deriving DecidableEq

/-- Source `rect_solver.rs` lines 80-90: the fit test of `solve_for`'s inner loop.
`fits` starts `true` and is cleared when the padded size exceeds the space
(line 83).  Line 85 then, when `!fits && can_rotate` and the *rotated*
padded size also exceeds the space, re-assigns `fits = false` and sets
`rotated = true` — embedded literally, including the fact that this branch
never sets `fits` back to `true`.  Returns `(fits, rotated)`. -/
def fitCheck (canRotate : Bool) (px py w h : Nat) (s : Space) : Bool × Bool :=
  let fits0 := !(decide (s.size.1 < add32 w px) || decide (s.size.2 < add32 h py))
  if !fits0 && canRotate && (decide (s.size.1 < add32 h px) || decide (s.size.2 < add32 w py))
  then (false, true)
  else (fits0, false)

/-- Source `rect_solver.rs` lines 77-90: scan the free-space list in order and return
the first space whose fit test passes, as a decomposition
`spaces = pre ++ s :: post` (i.e. `pre.length` is the found `space_idx`),
together with the `rotated` flag computed by the fit test. -/
def findFit (canRotate : Bool) (px py w h : Nat) :
    List Space → Option (List Space × Space × List Space × Bool)
  | [] => none
  | s :: rest =>
    let fr := fitCheck canRotate px py w h s
    if fr.1 then some ([], s, rest, fr.2)
    else
      match findFit canRotate px py w h rest with
      | none => none
      | some (pre, t, post, rot) => some (s :: pre, t, post, rot)

/-- Source `rect_solver.rs` lines 92-133: place the rect into the found space and
update the free-space list.  `pre ++ s :: post` is the list with the chosen
space `s` at index `pre.length`; the four branches mirror lines 102-133
(`Vec::remove`, in-place updates, and `Vec::push` to the end). -/
def placeRect {K : Type} (pads : Nat × Nat) (px py : Nat)
    (pre : List Space) (s : Space) (post : List Space) (r : Rect K) (rot : Bool) :
    Rect K × List Space :=
  let r1 : Rect K :=
    { r with
      rotated := rot
      pos := (add32 s.pos.1 pads.1, add32 s.pos.2 pads.2)
      size := if rot then (r.size.2, r.size.1) else r.size }
  let rw := add32 r1.size.1 px
  let rh := add32 r1.size.2 py
  let spaces :=
    if s.size.1 = rw ∧ s.size.2 = rh then
      pre ++ post
    else if s.size.2 = rh then
      pre ++ (⟨(add32 s.pos.1 rw, s.pos.2), (sub32 s.size.1 rw, s.size.2)⟩ : Space) :: post
    else if s.size.1 = rw then
      pre ++ (⟨(s.pos.1, add32 s.pos.2 rh), (s.size.1, sub32 s.size.2 rh)⟩ : Space) :: post
    else
      (pre ++ (⟨(s.pos.1, add32 s.pos.2 rh), (rw, sub32 s.size.2 rh)⟩ : Space) :: post)
        ++ [⟨(add32 s.pos.1 rw, s.pos.2), (sub32 s.size.1 rw, s.size.2)⟩]
  (r1, spaces)

/-- Source `rect_solver.rs` lines 75-142: the `'outer` loop of `solve_for`,
processing rects in input order against the current free-space list.
Returns the source's `bool` result together with the rect list as mutated
in place (on failure the offending rect and its successors are unchanged). -/
def solveForGo {K : Type} (canRotate : Bool) (pads : Nat × Nat) (px py : Nat) :
    List Space → List (Rect K) → Bool × List (Rect K)
  | _, [] => (true, [])
  | spaces, r :: rs =>
    match findFit canRotate px py r.size.1 r.size.2 spaces with
    | none => (false, r :: rs)
    | some (pre, s, post, rot) =>
      let p := placeRect pads px py pre s post r rot
      let rest := solveForGo canRotate pads px py p.2 rs
      (rest.1, p.1 :: rest.2)

/-- Source `rect_solver.rs` lines 68-143: `Solver::solve_for`.  The initial
free-space list is the whole `dims × dims` canvas; `px`/`py` are
`pads * 2` in `u32` arithmetic (lines 72-73). -/
def solve_for {K : Type} (dims : Nat) (pads : Nat × Nat) (canRotate : Bool)
    (rects : List (Rect K)) : Bool × List (Rect K) :=
  solveForGo canRotate pads (mul32 pads.1 2) (mul32 pads.2 2)
    [⟨(0, 0), (dims, dims)⟩] rects

/-- Source `utils/mod.rs` lines 11-21: the loop body of `NextPot::next_pot` for `u32`
(`while v < self { v <<= 1; i += 1; }; i` — note it returns the *exponent*,
not the power of two).  `v <<= 1` wraps in `u32`, so the loop diverges for
inputs above `2^31`; the fuel-exhausted `none` models that divergence
(34 iterations are enough for every terminating input). -/
def nextPotGo (x : Nat) : Nat → Nat → Nat → Option Nat
  | 0, _, _ => none
  | fuel + 1, v, i => if v < x then nextPotGo x fuel (mul32 v 2) (i + 1) else some i

/-- Source `utils/mod.rs` lines 11-21: `NextPot::next_pot` for `u32`. -/
def next_pot (x : Nat) : Option Nat := nextPotGo x 34 1 0

/-- Structural binary square root: after `fuel` steps, `acc` holds the
floor square root of `n` restricted to bits below `fuel` (correct for
`n < 4^fuel`).  Used to model `f32::sqrt` exactly; written structurally so
that the kernel can evaluate it. -/
def isqrtAux (n : Nat) : Nat → Nat → Nat
  | 0, acc => acc
  | k + 1, acc =>
    let c := acc + 2 ^ k
    isqrtAux n k (if c * c ≤ n then c else acc)

/-- Floor square root of `n`, correct for `n < 2^48`. -/
def isqrt48 (n : Nat) : Nat := isqrtAux n 24 0

/-- Structural base-2 logarithm (floor), with fuel; correct for `n < 2^64`. -/
def log2fuel : Nat → Nat → Nat
  | 0, _ => 0
  | f + 1, n => if 2 ≤ n then log2fuel f (n / 2) + 1 else 0

/-- Floor base-2 logarithm, correct for positive `n < 2^64`. -/
def nlog2 (n : Nat) : Nat := log2fuel 64 n

/-- Models Rust `n as f32` for a `u32` value `n`, exactly: round `n` to the
nearest integer with a 24-bit significand, ties to even (IEEE-754
round-to-nearest).  Values below `2^24` are exact. -/
def roundF32 (n : Nat) : Nat :=
  if n < 2 ^ 24 then n
  else
    let e := nlog2 n
    let d := 2 ^ (e - 23)
    let q := n / d
    let r := n % d
    let q' :=
      if 2 * r < d then q
      else if d < 2 * r then q + 1
      else if q % 2 = 0 then q else q + 1
    q' * d

/-- Models Rust `(n as f32).sqrt() as u32` for a `u32` value `n`, exactly:
`r = roundF32 n` is the exact value of `n as f32`; the IEEE-754 square root
is the correctly rounded 24-bit value `m·2^(k-23)` where
`k = ⌊log2 √r⌋ = ⌊log2 r⌋ / 2` and `m = round(√r · 2^(23-k))`
(no ties can occur: `√B` is either an integer or irrational, so rounding
compares `B` against `q² + q` for `q = ⌊√B⌋`); the final `as u32` cast
truncates, i.e. shifts the significand down by `23 - k` bits. -/
def sqrtF32U32 (n : Nat) : Nat :=
  if n = 0 then 0
  else
    let r := roundF32 n
    let k := nlog2 r / 2
    let pw := 2 ^ (23 - k)
    let B := r * (pw * pw)
    let q := isqrt48 B
    let m := if B ≤ q * q + q then q else q + 1
    m / pw

/-- Models Rust `2.0f32.powf(p as f32) as u32` for the exponents the solver
uses (`p ≤ 33`): `2^p` is exactly representable in `f32`, and the `as u32`
cast saturates at `u32::MAX` for `p ≥ 32`. -/
def pow2u32 (p : Nat) : Nat := min (2 ^ p) (M - 1)

/-- Source `rect_solver.rs` lines 147-153: the pre-check loop of `Solver::solve`.
Each rect's padded size is compared against `max_dims` (first violation
returns `ImageIsTooBig` immediately), and the padded areas are summed into
`acc`, all in wrapping `u32` arithmetic. -/
def preCheck {K : Type} (maxDims : Nat) (padding : Nat × Nat) :
    List (Rect K) → Nat → Except SolverError Nat
  | [], acc => .ok acc
  | r :: rs, acc =>
    if maxDims < add32 r.size.1 (mul32 padding.1 2) ∨
       maxDims < add32 r.size.2 (mul32 padding.2 2) then
      .error .imageIsTooBig
    else
      preCheck maxDims padding rs
        (add32 acc (mul32 (add32 r.size.1 (mul32 padding.1 2))
                          (add32 r.size.2 (mul32 padding.2 2))))

/-- Source `rect_solver.rs` lines 162-167: the candidate loop of `Solver::solve`.
For each exponent `p` the candidate dimension is `2^p` (via `powf`), and the
rect list is threaded through failed attempts exactly as the source mutates
it in place. -/
def tryDims {K : Type} (padding : Nat × Nat) (canRotate : Bool) :
    List Nat → List (Rect K) → Except SolverError ((Nat × Nat) × List (Rect K))
  | [], _ => .error (.cannotFitOnOnePage 0)
  | p :: ps, rects =>
    let dim := pow2u32 p
    let res := solve_for dim padding canRotate rects
    if res.1 then .ok ((dim, dim), res.2)
    else tryDims padding canRotate ps res.2

/-- Source `rect_solver.rs` lines 146-170: `Solver::solve`.  Returns `none` when the
source diverges (inside `next_pot` for `max_dims > 2^31`), otherwise the
source's `Result` paired with the final state of the rect list. -/
def solve {K : Type} (maxDims : Nat) (padding : Nat × Nat) (canRotate : Bool)
    (rects : List (Rect K)) :
    Option (Except SolverError ((Nat × Nat) × List (Rect K))) :=
  match preCheck maxDims padding rects 0 with
  | .error e => some (.error e)
  | .ok total =>
    let given := mul32 maxDims maxDims
    if given < total then some (.error .areaIsTooBig)
    else
      match next_pot maxDims with
      | none => none
      | some maxPot =>
        match next_pot (sqrtF32U32 total) with
        | none => none
        | some pot =>
          some (tryDims padding canRotate (List.range' pot (maxPot + 1 - pot)) rects)

/-! ## Geometry of placements

The claims speak about padded bounding boxes: the box of a placed rect
reaches from `pos - padding` to `pos + size + padding` on each axis.  We
realise boxes as finite sets of unit cells (half-open products of integer
intervals), so that "overlap" is plain set intersection and areas are
cardinalities. -/

/-- Half-open axis-aligned box of unit cells. -/
def box (lo hi : Nat × Nat) : Finset (Nat × Nat) :=
  Finset.Ico lo.1 hi.1 ×ˢ Finset.Ico lo.2 hi.2

/-- The padded bounding box of a placed rect: from `pos - padding` to
`pos + size + padding` on each axis. -/
def rbox {K : Type} (pads : Nat × Nat) (r : Rect K) : Finset (Nat × Nat) :=
  box (r.pos.1 - pads.1, r.pos.2 - pads.2)
      (r.pos.1 + r.size.1 + pads.1, r.pos.2 + r.size.2 + pads.2)

/-- The region covered by a free space. -/
def sset (s : Space) : Finset (Nat × Nat) :=
  box s.pos (s.pos.1 + s.size.1, s.pos.2 + s.size.2)

/-- The canvas region of a `d × d` candidate. -/
def canvasSet (d : Nat) : Finset (Nat × Nat) := box (0, 0) (d, d)

/-- Union of the regions of a free-space list. -/
def spacesUnion (l : List Space) : Finset (Nat × Nat) :=
  l.foldr (fun s acc => sset s ∪ acc) ∅

/-- Disjointness of two spaces' regions. -/
def SDisj (a b : Space) : Prop := Disjoint (sset a) (sset b)

/-- Disjointness of two rects' padded bounding boxes (the claims' notion of
"do not overlap"). -/
def RDisj {K : Type} (pads : Nat × Nat) (a b : Rect K) : Prop :=
  Disjoint (rbox pads a) (rbox pads b)

/-- A rect's padded extents fit in `u32` without wrapping. -/
def NoWrap {K : Type} (pads : Nat × Nat) (r : Rect K) : Prop :=
  r.size.1 + 2 * pads.1 < M ∧ r.size.2 + 2 * pads.2 < M

instance {K : Type} (pads : Nat × Nat) (r : Rect K) : Decidable (NoWrap pads r) :=
  inferInstanceAs (Decidable (_ ∧ _))

/-- A space lies inside the `d × d` canvas (arithmetically, so that it also
bounds the coordinates of degenerate zero-width spaces). -/
def SpaceIn (d : Nat) (s : Space) : Prop :=
  s.pos.1 + s.size.1 ≤ d ∧ s.pos.2 + s.size.2 ≤ d

/-- A placed rect sits at least one padding away from the origin and its
padded box stays inside the `d × d` canvas. -/
def PlacedIn {K : Type} (d : Nat) (pads : Nat × Nat) (r : Rect K) : Prop :=
  pads.1 ≤ r.pos.1 ∧ pads.2 ≤ r.pos.2 ∧
  r.pos.1 + r.size.1 + pads.1 ≤ d ∧ r.pos.2 + r.size.2 + pads.2 ≤ d

/-- Total padded area of a rect list, in exact (non-wrapping) arithmetic. -/
def totalPaddedArea {K : Type} (pads : Nat × Nat) (rects : List (Rect K)) : Nat :=
  (rects.map (fun r => (r.size.1 + 2 * pads.1) * (r.size.2 + 2 * pads.2))).sum

/-- Predicate: `q` is the exponent of the smallest power of two whose square covers the
area `A`, i.e. `2^q` is the smallest power of two that is `≥ √A`. -/
def IsLeastPotGeSqrt (A q : Nat) : Prop :=
  A ≤ 2 ^ q * 2 ^ q ∧ ∀ j, A ≤ 2 ^ j * 2 ^ j → q ≤ j

/-! ## Atlas layer: regions, builder, resolvers, async loader

The GPU-facing fields of the source (`vulkano` image handles, samplers,
descriptor sets, command buffers) are opaque resource handles irrelevant to
the claims; they are omitted from the embedded structures or abstracted by a
type parameter `Img`.  The source computes UV coordinates in `f32`; the
embedding represents each `f32` value by its exact rational value and models
every arithmetic operation as the correctly rounded (round-to-nearest,
ties-to-even, 24-bit significand) real operation, which is the IEEE-754
binary32 semantics for all values in the normal range.  Every value
`from_rect` produces for positive canvas dimensions lies in
`[2^-64, 2^64] ∪ {0}`, far inside the normal range, so neither overflow,
underflow/subnormals nor NaN can occur and the model is bit-exact there; a
zero canvas axis (division by zero, giving `inf` in the source) is outside
the model and excluded by hypothesis in the theorems. -/

/-- Round the nonnegative rational `n / d` to the nearest integer, ties to
even (the final rounding step shared by all `f32` operations). -/
def rhe (n d : Nat) : Nat :=
  let q := n / d
  let r := n % d
  if 2 * r < d then q else if d < 2 * r then q + 1 else if q % 2 = 0 then q else q + 1

/-- Round a rational to the nearest `f32`-representable value: find the
exponent `e` with `2^e ≤ |q| < 2^(e+1)`, round the significand `|q|·2^(23-e)`
to the nearest integer with ties to even, and reapply sign and scale.
Exponents are unbounded (no overflow or subnormal handling): exact for the
normal `f32` range, which covers every value the atlas code produces for
positive canvas dimensions. -/
def round32 (q : ℚ) : ℚ :=
  if q = 0 then 0
  else
    let n := q.num.natAbs
    let d := q.den
    let a := log2fuel 128 n
    let b := log2fuel 128 d
    let e : ℤ := if d * 2 ^ a ≤ n * 2 ^ b then (a : ℤ) - b else (a : ℤ) - b - 1
    let m := rhe (n * 2 ^ (23 - e).toNat) (d * 2 ^ (e - 23).toNat)
    (if q.num < 0 then -1 else 1) * (m : ℚ) * (2 : ℚ) ^ (e - 23)

/-- IEEE-754 `f32` addition: the correctly rounded exact sum. -/
def f32add (x y : ℚ) : ℚ := round32 (x + y)

/-- IEEE-754 `f32` subtraction: the correctly rounded exact difference. -/
def f32sub (x y : ℚ) : ℚ := round32 (x - y)

/-- IEEE-754 `f32` multiplication: the correctly rounded exact product. -/
def f32mul (x y : ℚ) : ℚ := round32 (x * y)

/-- IEEE-754 `f32` division: the correctly rounded exact quotient (the
divisors in play are nonzero; division by zero gives `inf` in the source and
is outside the model). -/
def f32div (x y : ℚ) : ℚ := round32 (x / y)

/-- Source `atlas/mod.rs` lines 356-362: `TextureRegion` — the two UV corners.
(`texture` and `sampler` handles omitted.) -/
structure TextureRegion where
  uv_a : ℚ × ℚ
  uv_b : ℚ × ℚ
deriving DecidableEq

/-- Source `atlas/mod.rs` lines 371-397: `TextureRegion::from_rect`.  The source
computes `iw = 1.0 / w as f32`, `u0 = rect.pos[0] as f32 * iw`,
`u1 = u0 + rect.size[0] as f32 * iw` (same for `v` with `ih`) in `f32` and
stores `uv_a = (1 - u0, 1 - v0)`, `uv_b = (1 - u1, 1 - v1)`; embedded with
the identical expression tree over the exact `f32` model: `roundF32` for the
`u32 → f32` casts and a correctly rounded `f32` operation at every node. -/
def TextureRegion.from_rect {K : Type} (rect : Rect K) (w h : Nat) : TextureRegion :=
  let iw := f32div 1 ((roundF32 w : ℕ) : ℚ)
  let ih := f32div 1 ((roundF32 h : ℕ) : ℚ)
  let u0 := f32mul ((roundF32 rect.pos.1 : ℕ) : ℚ) iw
  let u1 := f32add u0 (f32mul ((roundF32 rect.size.1 : ℕ) : ℚ) iw)
  let v0 := f32mul ((roundF32 rect.pos.2 : ℕ) : ℚ) ih
  let v1 := f32add v0 (f32mul ((roundF32 rect.size.2 : ℕ) : ℚ) ih)
  { uv_a := (f32sub 1 u0, f32sub 1 v0), uv_b := (f32sub 1 u1, f32sub 1 v1) }

/-- Source `atlas/mod.rs` lines 56-60: atlas errors. -/
inductive AtlasError where
  | solverError (e : SolverError)
  | nameAlreadyInUse (name : String)
deriving DecidableEq

/-- Source `atlas/mod.rs` lines 82-86: `BuilderEntry` (name and target dims; the
`image` source-state field is a GPU/loader handle, omitted). -/
structure BuilderEntry where
  name : String
  dims : Nat × Nat
deriving DecidableEq

/-- Source `atlas/mod.rs` lines 146-154: `AtlasBuilder` configuration and entry
list (`background_color`, `format`, `sampler` omitted: GPU/float-only
configuration the claims never touch). -/
structure AtlasBuilder where
  max_dims : Nat
  padding : Nat × Nat
  can_rotate : Bool
  entries : List BuilderEntry
deriving DecidableEq

/-- Source `atlas/mod.rs` lines 156-166: `AtlasBuilder::start` defaults. -/
def AtlasBuilder.start : AtlasBuilder :=
  { max_dims := 1024, padding := (2, 2), can_rotate := true, entries := [] }

/-- The lookup `self.entries.iter().find(|x| x.name == name)` used by
`add_entry` (`atlas/mod.rs` line 176) and by anyone querying an entry. -/
def AtlasBuilder.find_entry (self : AtlasBuilder) (name : String) : Option BuilderEntry :=
  self.entries.find? (fun x => x.name == name)

/-- Source `atlas/mod.rs` lines 175-182: `AtlasBuilder::add_entry` — error on a
duplicate name, else push the entry. -/
def AtlasBuilder.add_entry (self : AtlasBuilder) (entry : BuilderEntry) :
    Except AtlasError AtlasBuilder :=
  if (self.find_entry entry.name).isSome then
    .error (.nameAlreadyInUse entry.name)
  else
    .ok { self with entries := self.entries ++ [entry] }

/-- Source `sync/loader.rs` lines 34-37: `Loader<T>` — a slot for the value and the
shared readiness flag (`Box`/`Arc<Mutex<_>>` indirection dropped). -/
structure Loader (T : Type) where
  obj : Option T
  ready : Bool
deriving DecidableEq

/-- Source `sync/loader.rs` lines 41-51: `Loader::with_gpu_future` stores the value
immediately (`obj = Some(obj)`) with `ready = false`; the spawned worker
only flips `ready` after flushing the future (see `FutureEvo`). -/
def Loader.with_gpu_future {T : Type} (obj : T) : Loader T :=
  { obj := some obj, ready := false }

/-- Source `sync/loader.rs` line 110: `Loader::snapshot` clones the current slot
contents — it does not consult `ready` and does not consume the loader. -/
def Loader.snapshot {T : Type} (l : Loader T) : Option T := l.obj

/-- Source `sync/loader.rs` line 81: `Loader::is_ready`. -/
def Loader.is_ready {T : Type} (l : Loader T) : Bool := l.ready

/-- The states a `with_gpu_future` loader passes through: created with the
slot already filled, then the spawned worker sets `ready` (lines 46-49). -/
inductive FutureEvo {T : Type} (v : T) : Loader T → Prop where
  | started : FutureEvo v (Loader.with_gpu_future v)
  | flushed : FutureEvo v { obj := some v, ready := true }

/-- The states a `with_closure` loader passes through (lines 54-77): slot
empty until the closure returns, then the worker writes the value and only
afterwards sets `ready`. -/
inductive ClosureEvo {T : Type} (v : T) : Loader T → Prop where
  | spawned : ClosureEvo v { obj := none, ready := false }
  | written : ClosureEvo v { obj := some v, ready := false }
  | done : ClosureEvo v { obj := some v, ready := true }

/-- Source `loader/mod.rs` lines 47-49 (of the application crate): image usage tag
passed through `ImageResolver::get`. -/
inductive MaterialImageUsage where
  | diffuse
deriving DecidableEq

/-- Source `atlas/mod.rs` lines 414-419: `AtlasImageResolver` holds the atlas's
region map (modelled as an association list; regions abstracted to `Img`). -/
structure AtlasImageResolver (Img : Type) where
  regions : List (String × Img)

/-- Source `atlas/mod.rs` lines 421-424: `AtlasImageResolver::get` is a plain map
lookup (the `usage` argument is only logged). -/
def AtlasImageResolver.get {Img : Type} (self : AtlasImageResolver Img)
    (usage : MaterialImageUsage) (key : String) : Option Img :=
  self.regions.lookup key

/-- Source `atlas/mod.rs` lines 428-435: `DirectoryImageResolver` — base directory
and the pool of already-loaded images (`BTreeMap` as association list;
loaded regions abstracted to `Img`; `queue`/`sampler` handles omitted). -/
structure DirectoryImageResolver (Img : Type) where
  base_path : String
  pooled : List (String × Img)

/-- Source `atlas/mod.rs` lines 447-468: `DirectoryImageResolver::get`.  The file
system is abstracted as `fs : String → Option Img` (`none` = unreadable
path, covering the whole read-decode-upload pipeline of lines 454-463).
On a cache miss the source reads `base_path/key`, panicking
(`unwrap_or_else(|_| panic!(..))`) when the read fails, and inserts the
loaded region; line 467 then returns
`Some(&self.pooled.get(key).as_ref().unwrap().1)`.  Panics are modelled as
`Except.error` carrying the panic message. -/
def DirectoryImageResolver.get {Img : Type} (fs : String → Option Img)
    (self : DirectoryImageResolver Img) (usage : MaterialImageUsage) (key : String) :
    Except String (Option Img × DirectoryImageResolver Img) :=
  let load : Except String (List (String × Img)) :=
    if (self.pooled.lookup key).isSome then .ok self.pooled
    else
      let path := self.base_path ++ "/" ++ key
      match fs path with
      | none => .error ("No file for path: " ++ path)
      | some img => .ok (self.pooled ++ [(key, img)])
  match load with
  | .error e => .error e
  | .ok pooled' =>
    match pooled'.lookup key with
    | some v => .ok (some v, { self with pooled := pooled' })
    | none => .error "called Option::unwrap on a None value"

theorem mem_box {p lo hi : Nat × Nat} :
    p ∈ box lo hi ↔ (lo.1 ≤ p.1 ∧ p.1 < hi.1) ∧ (lo.2 ≤ p.2 ∧ p.2 < hi.2) := by
  simp [box, Finset.mem_product, Finset.mem_Ico]

theorem box_subset {lo1 hi1 lo2 hi2 : Nat × Nat}
    (h1 : lo2.1 ≤ lo1.1) (h2 : lo2.2 ≤ lo1.2)
    (h3 : hi1.1 ≤ hi2.1) (h4 : hi1.2 ≤ hi2.2) :
    box lo1 hi1 ⊆ box lo2 hi2 := by
  intro p hp
  rw [mem_box] at hp ⊢
  omega

theorem box_disjoint_x {lo1 hi1 lo2 hi2 : Nat × Nat} (h : hi1.1 ≤ lo2.1) :
    Disjoint (box lo1 hi1) (box lo2 hi2) := by
  rw [Finset.disjoint_left]
  intro p hp1 hp2
  rw [mem_box] at hp1 hp2
  omega

theorem box_disjoint_y {lo1 hi1 lo2 hi2 : Nat × Nat} (h : hi1.2 ≤ lo2.2) :
    Disjoint (box lo1 hi1) (box lo2 hi2) := by
  rw [Finset.disjoint_left]
  intro p hp1 hp2
  rw [mem_box] at hp1 hp2
  omega

theorem box_card {lo hi : Nat × Nat} :
    (box lo hi).card = (hi.1 - lo.1) * (hi.2 - lo.2) := by
  simp [box, Finset.card_product, Nat.card_Ico]

theorem mem_spacesUnion {p : Nat × Nat} {l : List Space} :
    p ∈ spacesUnion l ↔ ∃ s ∈ l, p ∈ sset s := by
  induction l with
  | nil => simp [spacesUnion]
  | cons s rest ih =>
    simp only [spacesUnion, List.foldr_cons, Finset.mem_union, List.mem_cons]
    constructor
    · rintro (h | h)
      · exact ⟨s, Or.inl rfl, h⟩
      · obtain ⟨t, ht, hpt⟩ := ih.mp h
        exact ⟨t, Or.inr ht, hpt⟩
    · rintro ⟨t, (rfl | ht), hpt⟩
      · exact Or.inl hpt
      · exact Or.inr (ih.mpr ⟨t, ht, hpt⟩)

theorem sset_subset_spacesUnion {s : Space} {l : List Space} (h : s ∈ l) :
    sset s ⊆ spacesUnion l := fun p hp => mem_spacesUnion.mpr ⟨s, h, hp⟩

theorem disjoint_spacesUnion {X : Finset (Nat × Nat)} {l : List Space}
    (h : ∀ s ∈ l, Disjoint (sset s) X) : Disjoint (spacesUnion l) X := by
  rw [Finset.disjoint_left]
  intro p hp hpx
  obtain ⟨s, hs, hps⟩ := mem_spacesUnion.mp hp
  exact (Finset.disjoint_left.mp (h s hs)) hps hpx

/-! ## Wrapping arithmetic under no-overflow side conditions -/

theorem add32_eq {a b : Nat} (h : a + b < M) : add32 a b = a + b :=
  Nat.mod_eq_of_lt h

theorem mul32_two {a : Nat} (h : 2 * a < M) : mul32 a 2 = 2 * a := by
  unfold mul32
  rw [Nat.mul_comm]
  exact Nat.mod_eq_of_lt h

theorem sub32_eq {a b : Nat} (hb : b ≤ a) (ha : a < M) : sub32 a b = a - b := by
  unfold sub32
  have hbM : b % M = b := Nat.mod_eq_of_lt (by omega)
  rw [hbM]
  have h2 : a + (M - b) = (a - b) + M := by omega
  rw [h2, Nat.add_mod_right, Nat.mod_eq_of_lt (by omega)]

/-! ## Semantics of the fit test and the space scan -/

/-- A passed fit test means the padded size fits the space (in wrapping
arithmetic), and — because the source's rotated branch never sets `fits`
back to `true` — the returned `rotated` flag is `false`. -/
theorem fitCheck_true {cr : Bool} {px py w h : Nat} {s : Space} {rot : Bool}
    (hfit : fitCheck cr px py w h s = (true, rot)) :
    add32 w px ≤ s.size.1 ∧ add32 h py ≤ s.size.2 ∧ rot = false := by
  unfold fitCheck at hfit
  simp only [] at hfit
  split at hfit
  · exact absurd (congrArg Prod.fst hfit) (by simp)
  · have h1 : (!(decide (s.size.1 < add32 w px) || decide (s.size.2 < add32 h py))) = true :=
      congrArg Prod.fst hfit
    have h2 : rot = false := (congrArg Prod.snd hfit).symm
    simp only [Bool.not_eq_true', Bool.or_eq_false_iff, decide_eq_false_iff_not,
      Nat.not_lt] at h1
    exact ⟨h1.1, h1.2, h2⟩

theorem findFit_some {cr : Bool} {px py w h : Nat} :
    ∀ {spaces pre post : List Space} {s : Space} {rot : Bool},
      findFit cr px py w h spaces = some (pre, s, post, rot) →
      spaces = pre ++ s :: post ∧ fitCheck cr px py w h s = (true, rot) := by
  intro spaces
  induction spaces with
  | nil => intro pre post s rot hf; simp [findFit] at hf
  | cons a rest ih =>
    intro pre post s rot hf
    rw [findFit] at hf
    by_cases hfr : (fitCheck cr px py w h a).1 = true
    · rw [if_pos hfr] at hf
      have hinj := Option.some.inj hf
      have h1 : ([] : List Space) = pre := congrArg (fun x => x.1) hinj
      have h2 : a = s := congrArg (fun x => x.2.1) hinj
      have h3 : rest = post := congrArg (fun x => x.2.2.1) hinj
      have h4 : (fitCheck cr px py w h a).2 = rot := congrArg (fun x => x.2.2.2) hinj
      subst h1; subst h2; subst h3
      refine ⟨rfl, ?_⟩
      rw [← h4, ← hfr]
    · rw [if_neg hfr] at hf
      cases hrec : findFit cr px py w h rest with
      | none => rw [hrec] at hf; exact absurd hf (by simp)
      | some v =>
        obtain ⟨pre', t, post', rot'⟩ := v
        rw [hrec] at hf
        have hinj := Option.some.inj hf
        have h1 : a :: pre' = pre := congrArg (fun x => x.1) hinj
        have h2 : t = s := congrArg (fun x => x.2.1) hinj
        have h3 : post' = post := congrArg (fun x => x.2.2.1) hinj
        have h4 : rot' = rot := congrArg (fun x => x.2.2.2) hinj
        subst h1; subst h2; subst h3; subst h4
        obtain ⟨hs, hc⟩ := ih hrec
        exact ⟨by rw [hs]; rfl, hc⟩

theorem SDisj.symm {a b : Space} (h : SDisj a b) : SDisj b a := Disjoint.symm h

theorem sset_mk {px py sx sy : Nat} :
    sset ⟨(px, py), (sx, sy)⟩ = box (px, py) (px + sx, py + sy) := rfl

theorem spacesUnion_eq_of_perm {l1 l2 : List Space} (h : l1.Perm l2) :
    spacesUnion l1 = spacesUnion l2 := by
  apply Finset.ext
  intro p
  simp only [mem_spacesUnion]
  constructor
  · rintro ⟨s, hs, hp⟩; exact ⟨s, h.mem_iff.mp hs, hp⟩
  · rintro ⟨s, hs, hp⟩; exact ⟨s, h.mem_iff.mpr hs, hp⟩

/-- Replacing the chosen space `s` (at its position in the list) by new
spaces `ns` that cover only parts of `s`'s region, avoid the freshly placed
box `B ⊆ sset s` and are mutually disjoint, preserves the free-space
invariants and shrinks the covered region. -/
theorem spaces_update_sound {d : Nat} {pre post : List Space} {s : Space}
    {B : Finset (Nat × Nat)} (ns : List Space)
    (hin : ∀ t ∈ pre ++ s :: post, SpaceIn d t)
    (hpw : (pre ++ s :: post).Pairwise SDisj)
    (hsub : ∀ n ∈ ns, sset n ⊆ sset s)
    (hnin : ∀ n ∈ ns, SpaceIn d n)
    (hnpw : ns.Pairwise SDisj)
    (hnB : ∀ n ∈ ns, Disjoint (sset n) B)
    (hB : B ⊆ sset s) :
    (∀ t ∈ pre ++ ns ++ post, SpaceIn d t) ∧
    (pre ++ ns ++ post).Pairwise SDisj ∧
    (∀ t ∈ pre ++ ns ++ post, Disjoint (sset t) B) ∧
    spacesUnion (pre ++ ns ++ post) ⊆ spacesUnion (pre ++ s :: post) := by
  rw [List.pairwise_append] at hpw
  obtain ⟨hpre, hsp, hcross⟩ := hpw
  rw [List.pairwise_cons] at hsp
  obtain ⟨hshead, hpost⟩ := hsp
  have hpre_s : ∀ a ∈ pre, SDisj a s := fun a ha => hcross a ha s (by simp)
  have hpre_post : ∀ a ∈ pre, ∀ b ∈ post, SDisj a b :=
    fun a ha b hb => hcross a ha b (by simp [hb])
  refine ⟨?_, ?_, ?_, ?_⟩
  · intro t ht
    rw [List.append_assoc, List.mem_append, List.mem_append] at ht
    rcases ht with ht | ht | ht
    · exact hin t (by simp [ht])
    · exact hnin t ht
    · exact hin t (by simp [ht])
  · rw [List.append_assoc, List.pairwise_append]
    refine ⟨hpre, ?_, ?_⟩
    · rw [List.pairwise_append]
      refine ⟨hnpw, hpost, ?_⟩
      intro n hn b hb
      exact Finset.disjoint_of_subset_left (hsub n hn) (hshead b hb)
    · intro a ha t ht
      rw [List.mem_append] at ht
      rcases ht with ht | ht
      · exact Finset.disjoint_of_subset_right (hsub t ht) (hpre_s a ha)
      · exact hpre_post a ha t ht
  · intro t ht
    rw [List.append_assoc, List.mem_append, List.mem_append] at ht
    rcases ht with ht | ht | ht
    · exact Finset.disjoint_of_subset_right hB (hpre_s t ht)
    · exact hnB t ht
    · exact Finset.disjoint_of_subset_right hB ((hshead t ht).symm)
  · intro p hp
    obtain ⟨t, ht, hpt⟩ := mem_spacesUnion.mp hp
    rw [List.append_assoc, List.mem_append, List.mem_append] at ht
    rcases ht with ht | ht | ht
    · exact mem_spacesUnion.mpr ⟨t, by simp [ht], hpt⟩
    · exact mem_spacesUnion.mpr ⟨s, by simp, hsub t ht hpt⟩
    · exact mem_spacesUnion.mpr ⟨t, by simp [ht], hpt⟩

/-- Placing a rect into the first fitting space keeps every invariant:
the rect lands (padding-inset) inside the chosen space, its padded box is
contained in that space's region, and the updated free-space list consists
of pairwise disjoint sub-regions of the old ones, all avoiding the new box. -/
theorem placeRect_sound {K : Type} {pads : Nat × Nat} {d : Nat} {cr : Bool}
    {pre post : List Space} {s : Space} {r r1 : Rect K} {rot : Bool}
    {spaces' : List Space}
    (hd : d < M)
    (hw : NoWrap pads r)
    (hin : ∀ t ∈ pre ++ s :: post, SpaceIn d t)
    (hpw : (pre ++ s :: post).Pairwise SDisj)
    (hfit : fitCheck cr (mul32 pads.1 2) (mul32 pads.2 2) r.size.1 r.size.2 s = (true, rot))
    (hpl : placeRect pads (mul32 pads.1 2) (mul32 pads.2 2) pre s post r rot = (r1, spaces')) :
    PlacedIn d pads r1 ∧ r1.size = r.size ∧ r1.rotated = false ∧ r1.key = r.key ∧
    rbox pads r1 ⊆ sset s ∧
    (∀ t ∈ spaces', SpaceIn d t) ∧
    spaces'.Pairwise SDisj ∧
    (∀ t ∈ spaces', Disjoint (sset t) (rbox pads r1)) ∧
    spacesUnion spaces' ⊆ spacesUnion (pre ++ s :: post) := by
  obtain ⟨hw1, hw2⟩ := hw
  obtain ⟨hfx0, hfy0, hrot⟩ := fitCheck_true hfit
  subst hrot
  have hpx : mul32 pads.1 2 = 2 * pads.1 := mul32_two (by omega)
  have hpy : mul32 pads.2 2 = 2 * pads.2 := mul32_two (by omega)
  rw [hpx, add32_eq hw1] at hfx0
  rw [hpy, add32_eq hw2] at hfy0
  have hs_in : SpaceIn d s := hin s (by simp)
  obtain ⟨hs1, hs2⟩ := hs_in
  -- unfold the placement
  unfold placeRect at hpl
  simp only [if_neg (by simp : ¬(false = true))] at hpl
  have hr1 : r1 = ⟨r.key, (add32 s.pos.1 pads.1, add32 s.pos.2 pads.2), r.size, false⟩ :=
    (congrArg Prod.fst hpl).symm
  have hsp := (congrArg Prod.snd hpl).symm
  simp only at hr1 hsp
  have hpads1 : s.pos.1 + pads.1 < M := by omega
  have hpads2 : s.pos.2 + pads.2 < M := by omega
  have hpos1 : r1.pos.1 = s.pos.1 + pads.1 := by rw [hr1]; exact add32_eq hpads1
  have hpos2 : r1.pos.2 = s.pos.2 + pads.2 := by rw [hr1]; exact add32_eq hpads2
  have hsize : r1.size = r.size := by rw [hr1]
  have hrot1 : r1.rotated = false := by rw [hr1]
  have hkey : r1.key = r.key := by rw [hr1]
  -- the padded box of the placed rect
  have hB : rbox pads r1 =
      box (s.pos.1, s.pos.2)
        (s.pos.1 + (r.size.1 + 2 * pads.1), s.pos.2 + (r.size.2 + 2 * pads.2)) := by
    unfold rbox
    rw [hsize, hpos1, hpos2]
    congr 1
    · exact Prod.ext (by omega) (by omega)
    · exact Prod.ext (by omega) (by omega)
  have hBsub : rbox pads r1 ⊆ sset s := by
    rw [hB]
    exact box_subset (le_refl _) (le_refl _) (by simp; omega) (by simp; omega)
  have hsz1 : r1.size.1 = r.size.1 := by rw [hsize]
  have hsz2 : r1.size.2 = r.size.2 := by rw [hsize]
  have hplaced : PlacedIn d pads r1 := by unfold PlacedIn; omega
  -- arithmetic forms of the `rw`/`rh` of the source
  have hrw : add32 r.size.1 (mul32 pads.1 2) = r.size.1 + 2 * pads.1 := by
    rw [hpx]; exact add32_eq hw1
  have hrh : add32 r.size.2 (mul32 pads.2 2) = r.size.2 + 2 * pads.2 := by
    rw [hpy]; exact add32_eq hw2
  rw [hrw, hrh] at hsp
  refine ⟨hplaced, hsize, hrot1, hkey, hBsub, ?_⟩
  -- branch analysis on the space update
  by_cases hc1 : s.size.1 = r.size.1 + 2 * pads.1 ∧ s.size.2 = r.size.2 + 2 * pads.2
  · rw [if_pos hc1] at hsp
    subst hsp
    have := spaces_update_sound [] hin hpw
      (by intro n hn; cases hn) (by intro n hn; cases hn) (.nil)
      (by intro n hn; cases hn) hBsub
    rw [List.append_nil] at this
    exact ⟨this.1, this.2.1, this.2.2.1, this.2.2.2⟩
  · rw [if_neg hc1] at hsp
    by_cases hc2 : s.size.2 = r.size.2 + 2 * pads.2
    · -- full height: shrink horizontally
      rw [if_pos hc2] at hsp
      have hlt1 : r.size.1 + 2 * pads.1 ≤ s.size.1 := hfx0
      rw [sub32_eq hlt1 (by omega)] at hsp
      set n : Space := ⟨(add32 s.pos.1 (r.size.1 + 2 * pads.1), s.pos.2),
        (s.size.1 - (r.size.1 + 2 * pads.1), s.size.2)⟩ with hn
      have hadd : add32 s.pos.1 (r.size.1 + 2 * pads.1) = s.pos.1 + (r.size.1 + 2 * pads.1) :=
        add32_eq (by omega)
      have hnset : sset n = box (s.pos.1 + (r.size.1 + 2 * pads.1), s.pos.2)
          (s.pos.1 + s.size.1, s.pos.2 + s.size.2) := by
        rw [hn, sset_mk, hadd,
          show s.pos.1 + (r.size.1 + 2 * pads.1) + (s.size.1 - (r.size.1 + 2 * pads.1))
            = s.pos.1 + s.size.1 from by omega]
      have hupd := spaces_update_sound [n] hin hpw
        (by
          intro t ht
          rw [List.mem_singleton] at ht
          subst ht
          rw [hnset]
          exact box_subset (Nat.le_add_right _ _) (le_refl _) (le_refl _) (le_refl _))
        (by
          intro t ht
          rw [List.mem_singleton] at ht
          subst ht
          rw [hn]
          constructor
          · show add32 s.pos.1 (r.size.1 + 2 * pads.1) + (s.size.1 - (r.size.1 + 2 * pads.1)) ≤ d
            rw [hadd]; omega
          · show s.pos.2 + s.size.2 ≤ d
            omega)
        (List.pairwise_singleton _ _)
        (by
          intro t ht
          rw [List.mem_singleton] at ht
          subst ht
          rw [hnset, hB]
          apply Disjoint.symm
          exact box_disjoint_x (by simp))
        hBsub
      have hee : pre ++ [n] ++ post = pre ++ n :: post := by simp
      rw [hee] at hupd
      rw [hsp]
      exact ⟨hupd.1, hupd.2.1, hupd.2.2.1, hupd.2.2.2⟩
    · rw [if_neg hc2] at hsp
      by_cases hc3 : s.size.1 = r.size.1 + 2 * pads.1
      · -- full width: shrink vertically
        rw [if_pos hc3] at hsp
        have hlt2 : r.size.2 + 2 * pads.2 ≤ s.size.2 := hfy0
        rw [sub32_eq hlt2 (by omega)] at hsp
        set n : Space := ⟨(s.pos.1, add32 s.pos.2 (r.size.2 + 2 * pads.2)),
          (s.size.1, s.size.2 - (r.size.2 + 2 * pads.2))⟩ with hn
        have hadd : add32 s.pos.2 (r.size.2 + 2 * pads.2) = s.pos.2 + (r.size.2 + 2 * pads.2) :=
          add32_eq (by omega)
        have hnset : sset n = box (s.pos.1, s.pos.2 + (r.size.2 + 2 * pads.2))
            (s.pos.1 + s.size.1, s.pos.2 + s.size.2) := by
          rw [hn, sset_mk, hadd,
            show s.pos.2 + (r.size.2 + 2 * pads.2) + (s.size.2 - (r.size.2 + 2 * pads.2))
              = s.pos.2 + s.size.2 from by omega]
        have hupd := spaces_update_sound [n] hin hpw
          (by
            intro t ht
            rw [List.mem_singleton] at ht
            subst ht
            rw [hnset]
            exact box_subset (le_refl _) (Nat.le_add_right _ _) (le_refl _) (le_refl _))
          (by
            intro t ht
            rw [List.mem_singleton] at ht
            subst ht
            rw [hn]
            constructor
            · show s.pos.1 + s.size.1 ≤ d
              omega
            · show add32 s.pos.2 (r.size.2 + 2 * pads.2) + (s.size.2 - (r.size.2 + 2 * pads.2)) ≤ d
              rw [hadd]; omega)
          (List.pairwise_singleton _ _)
          (by
            intro t ht
            rw [List.mem_singleton] at ht
            subst ht
            rw [hnset, hB]
            apply Disjoint.symm
            exact box_disjoint_y (by simp))
          hBsub
        have hee : pre ++ [n] ++ post = pre ++ n :: post := by simp
        rw [hee] at hupd
        rw [hsp]
        exact ⟨hupd.1, hupd.2.1, hupd.2.2.1, hupd.2.2.2⟩
      · -- split into bottom and right remainders
        rw [if_neg hc3] at hsp
        have hlt1 : r.size.1 + 2 * pads.1 ≤ s.size.1 := hfx0
        have hlt2 : r.size.2 + 2 * pads.2 ≤ s.size.2 := hfy0
        rw [sub32_eq hlt1 (by omega), sub32_eq hlt2 (by omega)] at hsp
        set nb : Space := ⟨(s.pos.1, add32 s.pos.2 (r.size.2 + 2 * pads.2)),
          (r.size.1 + 2 * pads.1, s.size.2 - (r.size.2 + 2 * pads.2))⟩ with hnb
        set nr : Space := ⟨(add32 s.pos.1 (r.size.1 + 2 * pads.1), s.pos.2),
          (s.size.1 - (r.size.1 + 2 * pads.1), s.size.2)⟩ with hnr
        have haddx : add32 s.pos.1 (r.size.1 + 2 * pads.1) = s.pos.1 + (r.size.1 + 2 * pads.1) :=
          add32_eq (by omega)
        have haddy : add32 s.pos.2 (r.size.2 + 2 * pads.2) = s.pos.2 + (r.size.2 + 2 * pads.2) :=
          add32_eq (by omega)
        have hnbset : sset nb = box (s.pos.1, s.pos.2 + (r.size.2 + 2 * pads.2))
            (s.pos.1 + (r.size.1 + 2 * pads.1), s.pos.2 + s.size.2) := by
          rw [hnb, sset_mk, haddy,
            show s.pos.2 + (r.size.2 + 2 * pads.2) + (s.size.2 - (r.size.2 + 2 * pads.2))
              = s.pos.2 + s.size.2 from by omega]
        have hnrset : sset nr = box (s.pos.1 + (r.size.1 + 2 * pads.1), s.pos.2)
            (s.pos.1 + s.size.1, s.pos.2 + s.size.2) := by
          rw [hnr, sset_mk, haddx,
            show s.pos.1 + (r.size.1 + 2 * pads.1) + (s.size.1 - (r.size.1 + 2 * pads.1))
              = s.pos.1 + s.size.1 from by omega]
        have hcanon := spaces_update_sound [nb, nr] hin hpw
          (by
            intro t ht
            rw [List.mem_cons, List.mem_singleton] at ht
            rcases ht with rfl | rfl
            · rw [hnbset]
              exact box_subset (le_refl _) (Nat.le_add_right _ _)
                (by show s.pos.1 + (r.size.1 + 2 * pads.1) ≤ s.pos.1 + s.size.1; omega)
                (le_refl _)
            · rw [hnrset]
              exact box_subset (Nat.le_add_right _ _) (le_refl _) (le_refl _) (le_refl _))
          (by
            intro t ht
            rw [List.mem_cons, List.mem_singleton] at ht
            rcases ht with rfl | rfl
            · rw [hnb]
              constructor
              · show s.pos.1 + (r.size.1 + 2 * pads.1) ≤ d
                omega
              · show add32 s.pos.2 (r.size.2 + 2 * pads.2) +
                  (s.size.2 - (r.size.2 + 2 * pads.2)) ≤ d
                rw [haddy]; omega
            · rw [hnr]
              constructor
              · show add32 s.pos.1 (r.size.1 + 2 * pads.1) +
                  (s.size.1 - (r.size.1 + 2 * pads.1)) ≤ d
                rw [haddx]; omega
              · show s.pos.2 + s.size.2 ≤ d
                omega)
          (by
            refine List.pairwise_cons.mpr ⟨?_, List.pairwise_singleton _ _⟩
            intro t ht
            rw [List.mem_singleton] at ht
            subst ht
            unfold SDisj
            rw [hnbset, hnrset]
            exact box_disjoint_x (by simp))
          (by
            intro t ht
            rw [List.mem_cons, List.mem_singleton] at ht
            rcases ht with rfl | rfl
            · rw [hnbset, hB]
              apply Disjoint.symm
              exact box_disjoint_y (by simp)
            · rw [hnrset, hB]
              apply Disjoint.symm
              exact box_disjoint_x (by simp))
          hBsub
        -- transfer from the canonical shape `pre ++ [nb, nr] ++ post`
        have hperm : (pre ++ [nb, nr] ++ post).Perm spaces' := by
          rw [hsp]
          have e1 : (pre ++ nb :: post) ++ [nr] = pre ++ (nb :: (post ++ [nr])) := by
            simp
          rw [e1]
          have e2 : pre ++ [nb, nr] ++ post = pre ++ (nb :: nr :: post) := by
            simp
          rw [e2]
          exact ((List.perm_append_singleton nr post).symm.cons nb).append_left pre
        refine ⟨?_, ?_, ?_, ?_⟩
        · intro t ht
          exact hcanon.1 t (hperm.mem_iff.mpr ht)
        · exact hcanon.2.1.perm hperm (fun hxy => hxy.symm)
        · intro t ht
          exact hcanon.2.2.1 t (hperm.mem_iff.mpr ht)
        · rw [← spacesUnion_eq_of_perm hperm]
          exact hcanon.2.2.2

/-- Sizes, keys (and hence padded areas) of the rect list are preserved by a
packing attempt, successful or not: the source's rotated branch never
triggers, so no rect's `size` is ever swapped. -/
theorem solveForGo_sizes {K : Type} {cr : Bool} {pads : Nat × Nat} {px py : Nat} :
    ∀ {rects : List (Rect K)} {spaces : List Space} {b : Bool} {out : List (Rect K)},
      solveForGo cr pads px py spaces rects = (b, out) →
      out.map (·.size) = rects.map (·.size) ∧ out.map (·.key) = rects.map (·.key) := by
  intro rects
  induction rects with
  | nil =>
    intro spaces b out hf
    rw [solveForGo] at hf
    have hout : out = [] := (congrArg Prod.snd hf).symm
    subst hout
    exact ⟨rfl, rfl⟩
  | cons r rs ih =>
    intro spaces b out hf
    rw [solveForGo] at hf
    cases hfd : findFit cr px py r.size.1 r.size.2 spaces with
    | none =>
      rw [hfd] at hf
      have hout : out = r :: rs := (congrArg Prod.snd hf).symm
      subst hout
      exact ⟨rfl, rfl⟩
    | some v =>
      obtain ⟨pre, s, post, rot⟩ := v
      rw [hfd] at hf
      simp only [] at hf
      have hrot : rot = false := (fitCheck_true (findFit_some hfd).2).2.2
      subst hrot
      have hout : out =
          (placeRect pads px py pre s post r false).1 ::
            (solveForGo cr pads px py (placeRect pads px py pre s post r false).2 rs).2 :=
        (congrArg Prod.snd hf).symm
      have hrec :
          (solveForGo cr pads px py (placeRect pads px py pre s post r false).2 rs).2.map
              (·.size) = rs.map (·.size) ∧
          (solveForGo cr pads px py (placeRect pads px py pre s post r false).2 rs).2.map
              (·.key) = rs.map (·.key) :=
        ih (Prod.ext rfl rfl)
      have hsz : (placeRect pads px py pre s post r false).1.size = r.size := rfl
      have hky : (placeRect pads px py pre s post r false).1.key = r.key := rfl
      subst hout
      constructor
      · simp only [List.map_cons, hsz, hrec.1]
      · simp only [List.map_cons, hky, hrec.2]

/-- Soundness of a successful packing pass: every output rect sits
padding-inset inside the canvas, the padded boxes are pairwise disjoint and
all of them are covered by the regions of the initial free-space list. -/
theorem solveForGo_sound {K : Type} {cr : Bool} {pads : Nat × Nat} {d : Nat}
    (hd : d < M) :
    ∀ {rects : List (Rect K)} (spaces : List Space) {out : List (Rect K)},
      (∀ r ∈ rects, NoWrap pads r) →
      (∀ s ∈ spaces, SpaceIn d s) →
      spaces.Pairwise SDisj →
      solveForGo cr pads (mul32 pads.1 2) (mul32 pads.2 2) spaces rects = (true, out) →
      (∀ r ∈ out, PlacedIn d pads r) ∧
      out.Pairwise (RDisj pads) ∧
      (∀ r ∈ out, rbox pads r ⊆ spacesUnion spaces) := by
  intro rects
  induction rects with
  | nil =>
    intro spaces out _ _ _ hf
    rw [solveForGo] at hf
    have hout : out = [] := (congrArg Prod.snd hf).symm
    subst hout
    exact ⟨by simp, List.Pairwise.nil, by simp⟩
  | cons r rs ih =>
    intro spaces out hnw hsin hspw hf
    rw [solveForGo] at hf
    cases hfd : findFit cr (mul32 pads.1 2) (mul32 pads.2 2) r.size.1 r.size.2 spaces with
    | none =>
      rw [hfd] at hf
      exact absurd (congrArg Prod.fst hf) (by simp)
    | some v =>
      obtain ⟨pre, s, post, rot⟩ := v
      rw [hfd] at hf
      simp only [] at hf
      obtain ⟨hdec, hfit⟩ := findFit_some hfd
      subst hdec
      have hps := placeRect_sound hd (hnw r (by simp)) hsin hspw hfit
        (Prod.ext rfl rfl)
      obtain ⟨hplc, hsize, hrot1, hkey, hBsub, hsin', hspw', hdisj', hUsub⟩ := hps
      have hX1 : (solveForGo cr pads (mul32 pads.1 2) (mul32 pads.2 2)
          (placeRect pads (mul32 pads.1 2) (mul32 pads.2 2) pre s post r rot).2 rs).1 = true :=
        congrArg Prod.fst hf
      have hout : out =
          (placeRect pads (mul32 pads.1 2) (mul32 pads.2 2) pre s post r rot).1 ::
          (solveForGo cr pads (mul32 pads.1 2) (mul32 pads.2 2)
            (placeRect pads (mul32 pads.1 2) (mul32 pads.2 2) pre s post r rot).2 rs).2 :=
        (congrArg Prod.snd hf).symm
      have hrec := ih _ (fun r' hr' => hnw r' (List.mem_cons_of_mem _ hr')) hsin' hspw'
        (Prod.ext hX1 rfl)
      obtain ⟨hplc2, hpw2, hU2⟩ := hrec
      subst hout
      refine ⟨?_, ?_, ?_⟩
      · intro t ht
        rw [List.mem_cons] at ht
        rcases ht with rfl | ht
        · exact hplc
        · exact hplc2 t ht
      · refine List.pairwise_cons.mpr ⟨?_, hpw2⟩
        intro t ht
        have hUdis : Disjoint
            (spacesUnion (placeRect pads (mul32 pads.1 2) (mul32 pads.2 2) pre s post r rot).2)
            (rbox pads (placeRect pads (mul32 pads.1 2) (mul32 pads.2 2) pre s post r rot).1) :=
          disjoint_spacesUnion hdisj'
        exact Finset.disjoint_of_subset_right (hU2 t ht) hUdis.symm
      · intro t ht
        rw [List.mem_cons] at ht
        rcases ht with rfl | ht
        · exact Finset.Subset.trans hBsub (sset_subset_spacesUnion (by simp))
        · exact Finset.Subset.trans (hU2 t ht) hUsub


/-! ## Characterisation of `next_pot` -/

theorem nextPotGo_none {x : Nat} (hx : 2 ^ 31 < x) :
    ∀ (fuel i : Nat), nextPotGo x fuel (2 ^ i % M) i = none := by
  intro fuel
  induction fuel with
  | zero => intro i; rfl
  | succ f ih =>
    intro i
    rw [nextPotGo]
    have hv : 2 ^ i % M < x := by
      rcases Nat.lt_or_ge i 32 with hi | hi
      · have h1 : 2 ^ i < M := by
          unfold M
          exact Nat.pow_lt_pow_right (by omega) hi
        rw [Nat.mod_eq_of_lt h1]
        calc 2 ^ i ≤ 2 ^ 31 := Nat.pow_le_pow_right (by omega) (by omega)
          _ < x := hx
      · have hdvd : M ∣ 2 ^ i := by
          unfold M
          exact pow_dvd_pow 2 hi
        have h1 : 2 ^ i % M = 0 := Nat.mod_eq_zero_of_dvd hdvd
        rw [h1]; omega
    rw [if_pos hv]
    have hmul : mul32 (2 ^ i % M) 2 = 2 ^ (i + 1) % M := by
      unfold mul32
      rw [Nat.mod_mul_mod, Nat.pow_succ]
    rw [hmul]
    exact ih (i + 1)

theorem next_pot_none {x : Nat} (hx : 2 ^ 31 < x) : next_pot x = none := by
  have h := nextPotGo_none hx 34 0
  rw [show 2 ^ 0 % M = 1 from by decide] at h
  exact h

theorem nextPotGo_some {x : Nat} (hx : x ≤ 2 ^ 31) :
    ∀ (fuel i : Nat), 32 - i ≤ fuel → i ≤ 31 → (∀ j, j < i → 2 ^ j < x) →
      ∃ k, nextPotGo x fuel (2 ^ i) i = some k ∧
        x ≤ 2 ^ k ∧ k ≤ 31 ∧ ∀ j, x ≤ 2 ^ j → k ≤ j := by
  intro fuel
  induction fuel with
  | zero => intro i hfu hi _; omega
  | succ f ih =>
    intro i hfu hi hinv
    rw [nextPotGo]
    by_cases hv : 2 ^ i < x
    · rw [if_pos hv]
      have hi31 : i < 31 := by
        rcases Nat.lt_or_ge i 31 with h | h
        · exact h
        · exfalso
          have : i = 31 := by omega
          subst this
          omega
      have hmul : mul32 (2 ^ i) 2 = 2 ^ (i + 1) := by
        unfold mul32
        rw [← Nat.pow_succ]
        apply Nat.mod_eq_of_lt
        unfold M
        exact Nat.pow_lt_pow_right (by omega) (by omega)
      rw [hmul]
      apply ih (i + 1) (by omega) (by omega)
      intro j hj
      rcases Nat.lt_or_ge j i with h | h
      · exact hinv j h
      · have : j = i := by omega
        subst this
        exact hv
    · rw [if_neg hv]
      refine ⟨i, rfl, by omega, hi, ?_⟩
      intro j hj
      by_contra hc
      push_neg at hc
      have := hinv j hc
      omega

theorem next_pot_some {x : Nat} (hx : x ≤ 2 ^ 31) :
    ∃ k, next_pot x = some k ∧ x ≤ 2 ^ k ∧ k ≤ 31 ∧ ∀ j, x ≤ 2 ^ j → k ≤ j := by
  have h := nextPotGo_some hx 34 0 (by omega) (by omega) (by omega)
  rw [show (2 : Nat) ^ 0 = 1 from rfl] at h
  exact h

theorem next_pot_spec {x k : Nat} (h : next_pot x = some k) :
    x ≤ 2 ^ 31 ∧ x ≤ 2 ^ k ∧ k ≤ 31 ∧ ∀ j, x ≤ 2 ^ j → k ≤ j := by
  have hx : x ≤ 2 ^ 31 := by
    by_contra hc
    push_neg at hc
    rw [next_pot_none hc] at h
    exact absurd h (by simp)
  obtain ⟨k', hk', h1, h2, h3⟩ := next_pot_some hx
  rw [h] at hk'
  have : k = k' := Option.some.inj hk'.symm |>.symm
  subst this
  exact ⟨hx, h1, h2, h3⟩

theorem pow2u32_lt {p : Nat} : pow2u32 p < M := by
  unfold pow2u32
  have h1 : M - 1 < M := by decide
  omega

theorem pow2u32_le {p : Nat} : pow2u32 p ≤ 2 ^ p := Nat.min_le_left _ _

theorem pow2u32_eq {p : Nat} (hp : p ≤ 31) : pow2u32 p = 2 ^ p := by
  unfold pow2u32
  apply Nat.min_eq_left
  calc 2 ^ p ≤ 2 ^ 31 := Nat.pow_le_pow_right (by omega) hp
    _ ≤ M - 1 := by decide

/-! ## From `solve` back to a successful packing pass -/

theorem totalPaddedArea_congr {K K' : Type} {pads : Nat × Nat}
    {r1 : List (Rect K)} {r2 : List (Rect K')}
    (h : r1.map (·.size) = r2.map (·.size)) :
    totalPaddedArea pads r1 = totalPaddedArea pads r2 := by
  unfold totalPaddedArea
  have e1 : r1.map (fun r => (r.size.1 + 2 * pads.1) * (r.size.2 + 2 * pads.2)) =
      (r1.map (·.size)).map (fun sz => (sz.1 + 2 * pads.1) * (sz.2 + 2 * pads.2)) := by
    rw [List.map_map]; rfl
  have e2 : r2.map (fun r => (r.size.1 + 2 * pads.1) * (r.size.2 + 2 * pads.2)) =
      (r2.map (·.size)).map (fun sz => (sz.1 + 2 * pads.1) * (sz.2 + 2 * pads.2)) := by
    rw [List.map_map]; rfl
  rw [e1, e2, h]

/-- The successful `tryDims` attempt: some candidate exponent in the list
succeeded, on a rect list with the same sizes as the input (earlier failed
attempts only move rects around). -/
theorem tryDims_ok {K : Type} {padding : Nat × Nat} {cr : Bool} :
    ∀ {ps : List Nat} {rects out : List (Rect K)} {dims : Nat × Nat},
      tryDims padding cr ps rects = .ok (dims, out) →
      ∃ p ∈ ps, ∃ rects' : List (Rect K),
        rects'.map (·.size) = rects.map (·.size) ∧
        dims = (pow2u32 p, pow2u32 p) ∧
        solve_for (pow2u32 p) padding cr rects' = (true, out) := by
  intro ps
  induction ps with
  | nil =>
    intro rects out dims hf
    rw [tryDims] at hf
    exact absurd hf (by simp)
  | cons p ps ih =>
    intro rects out dims hf
    rw [tryDims] at hf
    by_cases hs : (solve_for (pow2u32 p) padding cr rects).1 = true
    · rw [if_pos hs] at hf
      have hinj := Except.ok.inj hf
      have hdims : dims = (pow2u32 p, pow2u32 p) := (congrArg Prod.fst hinj).symm
      have hout : out = (solve_for (pow2u32 p) padding cr rects).2 :=
        (congrArg Prod.snd hinj).symm
      refine ⟨p, by simp, rects, rfl, hdims, ?_⟩
      rw [hout]
      exact Prod.ext hs rfl
    · rw [if_neg hs] at hf
      obtain ⟨q, hq, rects', hsz, hdims, hsolve⟩ := ih hf
      refine ⟨q, by simp [hq], rects', ?_, hdims, hsolve⟩
      rw [hsz]
      exact (solveForGo_sizes (Prod.ext rfl rfl)).1

/-! ## Area accounting -/

theorem sum_card_le_of_disjoint {α : Type} [DecidableEq α] :
    ∀ (bs : List (Finset α)) (C : Finset α),
      bs.Pairwise Disjoint → (∀ b ∈ bs, b ⊆ C) →
      (bs.map Finset.card).sum ≤ C.card := by
  intro bs
  induction bs with
  | nil => intro C _ _; simp
  | cons b bs ih =>
    intro C hpw hsub
    rw [List.pairwise_cons] at hpw
    obtain ⟨hdisj, hpw⟩ := hpw
    have hbC : b ⊆ C := hsub b (by simp)
    have hrest : (bs.map Finset.card).sum ≤ (C \ b).card := by
      apply ih _ hpw
      intro b' hb'
      rw [Finset.subset_sdiff]
      exact ⟨hsub b' (by simp [hb']), (hdisj b' hb').symm⟩
    have hsd : (C \ b).card = C.card - b.card := Finset.card_sdiff hbC
    have hle : b.card ≤ C.card := Finset.card_le_card hbC
    simp only [List.map_cons, List.sum_cons]
    omega

theorem rbox_card {K : Type} {pads : Nat × Nat} {r : Rect K}
    (h1 : pads.1 ≤ r.pos.1) (h2 : pads.2 ≤ r.pos.2) :
    (rbox pads r).card = (r.size.1 + 2 * pads.1) * (r.size.2 + 2 * pads.2) := by
  unfold rbox
  rw [box_card]
  have e1 : (r.pos.1 + r.size.1 + pads.1, r.pos.2 + r.size.2 + pads.2).1 -
      (r.pos.1 - pads.1, r.pos.2 - pads.2).1 = r.size.1 + 2 * pads.1 := by
    simp only []
    omega
  have e2 : (r.pos.1 + r.size.1 + pads.1, r.pos.2 + r.size.2 + pads.2).2 -
      (r.pos.1 - pads.1, r.pos.2 - pads.2).2 = r.size.2 + 2 * pads.2 := by
    simp only []
    omega
  rw [e1, e2]

theorem canvasSet_card {d : Nat} : (canvasSet d).card = d * d := by
  unfold canvasSet
  rw [box_card]
  simp

theorem rbox_subset_canvas {K : Type} {d : Nat} {pads : Nat × Nat} {r : Rect K}
    (h : PlacedIn d pads r) : rbox pads r ⊆ canvasSet d := by
  unfold rbox canvasSet
  exact box_subset (by simp) (by simp)
    (by simpa using h.2.2.1) (by simpa using h.2.2.2)

/-- A successful packing pass cannot place more total padded area than the
canvas holds: the padded boxes are disjoint subsets of the canvas. -/
theorem solve_for_area {K : Type} {dims : Nat} {pads : Nat × Nat} {cr : Bool}
    {rects out : List (Rect K)}
    (hd : dims < M) (hnw : ∀ r ∈ rects, NoWrap pads r)
    (hf : solve_for dims pads cr rects = (true, out)) :
    totalPaddedArea pads rects ≤ dims * dims := by
  have hsound := solveForGo_sound hd [⟨(0, 0), (dims, dims)⟩] hnw
    (by intro s hs; rw [List.mem_singleton] at hs; subst hs; constructor <;> simp)
    (List.pairwise_singleton _ _) hf
  obtain ⟨hplc, hpw, _⟩ := hsound
  have hszs := (solveForGo_sizes hf).1
  rw [← totalPaddedArea_congr hszs]
  have harea : totalPaddedArea pads out = ((out.map (rbox pads)).map Finset.card).sum := by
    unfold totalPaddedArea
    rw [List.map_map]
    apply congrArg
    apply List.map_congr_left
    intro r hr
    have hp := hplc r hr
    exact (rbox_card hp.1 hp.2.1).symm
  rw [harea]
  calc ((out.map (rbox pads)).map Finset.card).sum ≤ (canvasSet dims).card := by
        apply sum_card_le_of_disjoint
        · exact List.pairwise_map.mpr hpw
        · intro b hb
          rw [List.mem_map] at hb
          obtain ⟨r, hr, hrb⟩ := hb
          rw [← hrb]
          exact rbox_subset_canvas (hplc r hr)
    _ = dims * dims := canvasSet_card

/-- Inversion of a successful `solve`: the pre-checks passed, `next_pot`
terminated on `max_dims`, and some candidate in the doubling loop packed the
rects. -/
theorem solve_ok_inv {K : Type} {maxDims : Nat} {padding : Nat × Nat} {cr : Bool}
    {rects out : List (Rect K)} {dims : Nat × Nat}
    (h : solve maxDims padding cr rects = some (.ok (dims, out))) :
    ∃ maxPot pot, next_pot maxDims = some maxPot ∧
      tryDims padding cr (List.range' pot (maxPot + 1 - pot)) rects = .ok (dims, out) := by
  unfold solve at h
  split at h
  · exact absurd (Option.some.inj h) (by simp)
  · simp only [] at h
    split at h
    · exact absurd (Option.some.inj h) (by simp)
    · split at h
      · exact absurd h (by simp)
      · next maxPot hmp =>
        split at h
        · exact absurd h (by simp)
        · next pot hpt =>
          exact ⟨maxPot, pot, hmp, Option.some.inj h⟩

/-- The predicate `NoWrap` only depends on a rect's size. -/
theorem NoWrap_of_size {K K' : Type} {pads : Nat × Nat} {r : Rect K} {r' : Rect K'}
    (hsz : r.size = r'.size) (h : NoWrap pads r) : NoWrap pads r' := by
  unfold NoWrap at h ⊢
  rw [← hsz]
  exact h

/-- The sizes of the rect list that the successful attempt packed are the
input sizes, and its rects satisfy the same no-overflow bound. -/
theorem solve_ok_attempt {K : Type} {maxDims : Nat} {padding : Nat × Nat} {cr : Bool}
    {rects out : List (Rect K)} {dims : Nat × Nat}
    (hnw : ∀ r ∈ rects, NoWrap padding r)
    (h : solve maxDims padding cr rects = some (.ok (dims, out))) :
    ∃ maxPot pot p, next_pot maxDims = some maxPot ∧
      pot ≤ p ∧ p ≤ maxPot ∧ dims = (pow2u32 p, pow2u32 p) ∧
      ∃ rects' : List (Rect K),
        rects'.map (·.size) = rects.map (·.size) ∧
        (∀ r ∈ rects', NoWrap padding r) ∧
        solve_for (pow2u32 p) padding cr rects' = (true, out) := by
  obtain ⟨maxPot, pot, hmp, htry⟩ := solve_ok_inv h
  obtain ⟨p, hp, rects', hsz, hdims, hsolve⟩ := tryDims_ok htry
  rw [List.mem_range'_1] at hp
  have hnw' : ∀ r ∈ rects', NoWrap padding r := by
    intro r hr
    have hmem : r.size ∈ rects'.map (·.size) := List.mem_map.mpr ⟨r, hr, rfl⟩
    rw [hsz, List.mem_map] at hmem
    obtain ⟨r0, hr0, hsz0⟩ := hmem
    exact NoWrap_of_size hsz0 (hnw r0 hr0)
  exact ⟨maxPot, pot, p, hmp, hp.1, by omega, hdims, rects', hsz, hnw', hsolve⟩

/-- Soundness of a successful `solve` in terms of the placed rects. -/
theorem solve_ok_sound {K : Type} {maxDims : Nat} {padding : Nat × Nat} {cr : Bool}
    {rects out : List (Rect K)} {dims : Nat × Nat}
    (hnw : ∀ r ∈ rects, NoWrap padding r)
    (h : solve maxDims padding cr rects = some (.ok (dims, out))) :
    dims.2 = dims.1 ∧
    (∀ r ∈ out, PlacedIn dims.1 padding r) ∧
    out.Pairwise (RDisj padding) ∧
    totalPaddedArea padding rects ≤ dims.1 * dims.1 := by
  obtain ⟨maxPot, pot, p, hmp, hpot, hple, hdims, rects', hsz, hnw', hsolve⟩ :=
    solve_ok_attempt hnw h
  have hd : pow2u32 p < M := pow2u32_lt
  have hsound := solveForGo_sound hd [⟨(0, 0), (pow2u32 p, pow2u32 p)⟩] hnw'
    (by intro s hs; rw [List.mem_singleton] at hs; subst hs; constructor <;> simp)
    (List.pairwise_singleton _ _) hsolve
  have harea : totalPaddedArea padding rects ≤ pow2u32 p * pow2u32 p := by
    rw [← totalPaddedArea_congr hsz]
    exact solve_for_area hd hnw' hsolve
  subst hdims
  exact ⟨rfl, hsound.1, hsound.2.1, harea⟩

/-! ## Claim theorems for the solver -/

/-- C1 (amended): for every list of rects and every parameter set on which
`Solver::solve` returns `Ok`, provided each rect's padded extents fit in
`u32` without wrapping (`size + 2·padding < 2^32` on both axes), the padded
bounding boxes of the placed rects — the box from `pos - padding` to
`pos + size + padding` on each axis — are pairwise disjoint. -/
theorem solve_ok_boxes_pairwise_disjoint {K : Type} {maxDims : Nat}
    {padding : Nat × Nat} {cr : Bool} {rects out : List (Rect K)} {dims : Nat × Nat}
    (hnw : ∀ r ∈ rects, NoWrap padding r)
    (h : solve maxDims padding cr rects = some (.ok (dims, out))) :
    out.Pairwise (RDisj padding) :=
  (solve_ok_sound hnw h).2.2.1

/-- C2 (amended): for every list of rects on which `Solver::solve` returns
`Ok(canvas)` whose padded extents do not overflow `u32`, every placed rect
satisfies `padding ≤ pos` and `pos + size + padding ≤ canvas` on both axes —
equivalently `(pos - padding) + size + 2·padding ≤ canvas`.  (The claim's
`pos + size + 2·padding ≤ canvas` counts the left padding twice: `pos` is
already inset by one padding from the free space's corner.) -/
theorem solve_ok_rects_within_canvas {K : Type} {maxDims : Nat}
    {padding : Nat × Nat} {cr : Bool} {rects out : List (Rect K)} {dims : Nat × Nat}
    (hnw : ∀ r ∈ rects, NoWrap padding r)
    (h : solve maxDims padding cr rects = some (.ok (dims, out))) :
    dims.2 = dims.1 ∧ ∀ r ∈ out,
      padding.1 ≤ r.pos.1 ∧ padding.2 ≤ r.pos.2 ∧
      r.pos.1 + r.size.1 + padding.1 ≤ dims.1 ∧
      r.pos.2 + r.size.2 + padding.2 ≤ dims.2 := by
  obtain ⟨hsq, hplc, _, _⟩ := solve_ok_sound hnw h
  refine ⟨hsq, ?_⟩
  intro r hr
  obtain ⟨h1, h2, h3, h4⟩ := hplc r hr
  rw [hsq]
  exact ⟨h1, h2, h3, h4⟩

/-- C4 (amended): for any list of rects satisfying the per-rect pre-check
(each padded size within `max_dims` on both axes, `max_dims` a `u32`) and the
total-area pre-check (sum of padded areas at most `max_dims²`), *whenever*
`Solver::solve` returns `Ok`, the canvas size is a power of two and is at
least the smallest power of two that is `≥ √(total padded area)`.  (`solve`
may instead return `CannotFitOnOnePage`; see the counterexample.) -/
theorem solve_ok_pot_ge_sqrt_area {K : Type} {maxDims : Nat}
    {padding : Nat × Nat} {cr : Bool} {rects out : List (Rect K)} {dims : Nat × Nat}
    (hM : maxDims < M)
    (hper : ∀ r ∈ rects, r.size.1 + 2 * padding.1 ≤ maxDims ∧
      r.size.2 + 2 * padding.2 ≤ maxDims)
    (harea : totalPaddedArea padding rects ≤ maxDims * maxDims)
    (h : solve maxDims padding cr rects = some (.ok (dims, out))) :
    (∃ k, dims.1 = 2 ^ k ∧ dims.2 = dims.1) ∧
    totalPaddedArea padding rects ≤ dims.1 * dims.1 ∧
    ∀ q, IsLeastPotGeSqrt (totalPaddedArea padding rects) q → 2 ^ q ≤ dims.1 := by
  have hnw : ∀ r ∈ rects, NoWrap padding r := by
    intro r hr
    have := hper r hr
    exact ⟨by omega, by omega⟩
  obtain ⟨maxPot, pot, p, hmp, hpot, hple, hdims, _⟩ := solve_ok_attempt hnw h
  have hspec := next_pot_spec hmp
  have hp31 : p ≤ 31 := by omega
  have hpow : dims.1 = 2 ^ p := by rw [hdims]; exact pow2u32_eq hp31
  have hareaout := (solve_ok_sound hnw h).2.2.2
  refine ⟨⟨p, hpow, by rw [hdims]⟩, hareaout, ?_⟩
  intro q hq
  have hk : totalPaddedArea padding rects ≤ 2 ^ p * 2 ^ p := by rw [← hpow]; exact hareaout
  have hqp : q ≤ p := hq.2 p hk
  rw [hpow]
  exact Nat.pow_le_pow_right (by omega) hqp

/-- C5 (amended): every canvas-size candidate that `Solver::solve` tries is
at most `2^next_pot(max_dims)`, the smallest power of two `≥ max_dims`; hence
on `Ok(canvas)` the canvas is bounded by that power of two on both axes, and
is bounded by `max_dims` itself whenever `max_dims` is a power of two.  (For
non-power-of-two `max_dims` the canvas may exceed `max_dims`; see the
counterexample.) -/
theorem solve_ok_canvas_le_pot_of_max_dims {K : Type} {maxDims : Nat}
    {padding : Nat × Nat} {cr : Bool} {rects out : List (Rect K)} {dims : Nat × Nat}
    (h : solve maxDims padding cr rects = some (.ok (dims, out))) :
    ∃ mp, next_pot maxDims = some mp ∧
      maxDims ≤ 2 ^ mp ∧ (∀ j, maxDims ≤ 2 ^ j → mp ≤ j) ∧
      dims.1 ≤ 2 ^ mp ∧ dims.2 ≤ 2 ^ mp ∧
      ((∃ k, maxDims = 2 ^ k) → dims.1 ≤ maxDims ∧ dims.2 ≤ maxDims) := by
  obtain ⟨maxPot, pot, hmp, htry⟩ := solve_ok_inv h
  obtain ⟨p, hp, rects', hsz, hdims, hsolve⟩ := tryDims_ok htry
  rw [List.mem_range'_1] at hp
  have hple : p ≤ maxPot := by omega
  have hspec := next_pot_spec hmp
  have hd1 : dims.1 = pow2u32 p := by rw [hdims]
  have hd2 : dims.2 = pow2u32 p := by rw [hdims]
  have hbound : pow2u32 p ≤ 2 ^ maxPot :=
    le_trans pow2u32_le (Nat.pow_le_pow_right (by omega) hple)
  refine ⟨maxPot, hmp, hspec.2.1, hspec.2.2.2, by omega, by omega, ?_⟩
  rintro ⟨k, hk⟩
  have hmk : maxPot ≤ k := hspec.2.2.2 k (by rw [hk])
  have : (2 : Nat) ^ maxPot ≤ 2 ^ k := Nat.pow_le_pow_right (by omega) hmk
  rw [hk]
  omega

/-! ## Concrete counterexamples and witnesses for the solver claims -/

/-- C1 counterexample: with `u32`-wrapping sizes the claim fails as stated.
Two rects of size `(2^32 - 2) × 1` with padding `(1,0)` pass the (wrapped)
pre-checks under `max_dims = 16` and are both "placed" at the same position
on a `1 × 1` canvas; their padded bounding boxes coincide, so they are not
disjoint. -/
theorem solve_overflow_boxes_overlap :
    solve 16 ((1 : Nat), (0 : Nat)) false
        [Rect.new () (2 ^ 32 - 2) 1, Rect.new () (2 ^ 32 - 2) 1] =
      some (.ok ((1, 1),
        [⟨(), (1, 0), (2 ^ 32 - 2, 1), false⟩, ⟨(), (1, 0), (2 ^ 32 - 2, 1), false⟩])) ∧
    ¬ List.Pairwise (RDisj ((1 : Nat), (0 : Nat)))
        [(⟨(), (1, 0), (2 ^ 32 - 2, 1), false⟩ : Rect Unit),
         ⟨(), (1, 0), (2 ^ 32 - 2, 1), false⟩] := by
  constructor
  · rfl
  · intro hpw
    have hd := (List.pairwise_cons.mp hpw).1
      (⟨(), (1, 0), (2 ^ 32 - 2, 1), false⟩ : Rect Unit) (List.mem_cons_self _ _)
    have hemp : rbox ((1 : Nat), (0 : Nat))
        (⟨(), (1, 0), (2 ^ 32 - 2, 1), false⟩ : Rect Unit) = ∅ :=
      disjoint_self.mp hd
    have hcard : (rbox ((1 : Nat), (0 : Nat))
        (⟨(), (1, 0), (2 ^ 32 - 2, 1), false⟩ : Rect Unit)).card =
        (2 ^ 32 - 2 + 2 * 1) * (1 + 2 * 0) :=
      rbox_card (by decide) (by decide)
    rw [hemp, Finset.card_empty] at hcard
    exact absurd hcard (by decide)

/-- C1 witness: two `1×1` rects with no padding pack at `(0,0)` and `(0,1)`
on a `2 × 2` canvas with disjoint boxes. -/
theorem solve_ok_boxes_pairwise_disjoint_witness :
    List.Pairwise (RDisj ((0 : Nat), (0 : Nat)))
      [(⟨(), (0, 0), (1, 1), false⟩ : Rect Unit), ⟨(), (0, 1), (1, 1), false⟩] := by
  have h : solve 4 ((0 : Nat), (0 : Nat)) false [Rect.new () 1 1, Rect.new () 1 1] =
      some (.ok ((2, 2), [⟨(), (0, 0), (1, 1), false⟩, ⟨(), (0, 1), (1, 1), false⟩])) := rfl
  exact solve_ok_boxes_pairwise_disjoint (by decide) h

/-- C2 counterexample: a `2×4` rect with padding `(1,0)` packs exactly into
the `4 × 4` canvas at `pos = (1,0)`, and `pos + size + 2·padding = 5 > 4` on
the x-axis — the claim counts the left padding twice. -/
theorem solve_pos_size_two_paddings_exceeds_canvas :
    solve 4 ((1 : Nat), (0 : Nat)) false [Rect.new () 2 4] =
      some (.ok ((4, 4), [⟨(), (1, 0), (2, 4), false⟩])) ∧
    ¬ ((⟨(), (1, 0), (2, 4), false⟩ : Rect Unit).pos.1 +
        (⟨(), (1, 0), (2, 4), false⟩ : Rect Unit).size.1 + 2 * 1 ≤ 4) :=
  ⟨rfl, by decide⟩

/-- C2 witness: the containment bound holds for the two-unit-rect packing. -/
theorem solve_ok_rects_within_canvas_witness :
    ((2 : Nat), (2 : Nat)).2 = ((2 : Nat), (2 : Nat)).1 ∧
    ∀ r ∈ [(⟨(), (0, 0), (1, 1), false⟩ : Rect Unit), ⟨(), (0, 1), (1, 1), false⟩],
      (0 : Nat) ≤ r.pos.1 ∧ (0 : Nat) ≤ r.pos.2 ∧
      r.pos.1 + r.size.1 + 0 ≤ ((2 : Nat), (2 : Nat)).1 ∧
      r.pos.2 + r.size.2 + 0 ≤ ((2 : Nat), (2 : Nat)).2 := by
  have h : solve 4 ((0 : Nat), (0 : Nat)) false [Rect.new () 1 1, Rect.new () 1 1] =
      some (.ok ((2, 2), [⟨(), (0, 0), (1, 1), false⟩, ⟨(), (0, 1), (1, 1), false⟩])) := rfl
  exact solve_ok_rects_within_canvas (by decide) h

/-- C3 (code bug): with rotation allowed, rects `[1×4, 4×1]` on a
`max_dims = 4` canvas fail to pack although the second rect fits the
remaining free space (at `(1,0)`, size `3×4`) when rotated 90°: the fit test
returns `(fits, rotated) = (false, false)` for that space even though the
swapped padded size fits (`1 ≤ 3` and `4 ≤ 4`), because the branch at
`rect_solver.rs` line 85 tests the wrong condition and never sets `fits`;
`solve` returns `CannotFitOnOnePage` and no rect is ever placed rotated. -/
theorem rotation_branch_never_places_rotated :
    solve 4 ((0 : Nat), (0 : Nat)) true [Rect.new () 1 4, Rect.new () 4 1] =
      some (.error (.cannotFitOnOnePage 0)) ∧
    fitCheck true 0 0 4 1 ⟨(1, 0), (3, 4)⟩ = (false, false) ∧
    add32 1 0 ≤ 3 ∧ add32 4 0 ≤ 4 :=
  ⟨rfl, rfl, by decide, by decide⟩

/-- C4 counterexample: rects `3×3` and `2×2` with `max_dims = 4` and no
padding satisfy both pre-checks (each padded size within 4; total padded
area `13 ≤ 16`), yet `solve` returns `CannotFitOnOnePage 0`, not `Ok`. -/
theorem solve_pre_checks_do_not_ensure_ok :
    (∀ r ∈ [Rect.new () 3 3, Rect.new () 2 2],
      r.size.1 + 2 * 0 ≤ 4 ∧ r.size.2 + 2 * 0 ≤ 4) ∧
    totalPaddedArea ((0 : Nat), (0 : Nat)) [Rect.new () 3 3, Rect.new () 2 2] ≤ 4 * 4 ∧
    solve 4 ((0 : Nat), (0 : Nat)) false [Rect.new () 3 3, Rect.new () 2 2] =
      some (.error (.cannotFitOnOnePage 0)) :=
  ⟨by decide, by decide, rfl⟩

/-- C4 witness: for the two-unit-rect input (total padded area 2) the canvas
`2` is a power of two, covers the area, and dominates the least power of two
above `√2`. -/
theorem solve_ok_pot_ge_sqrt_area_witness :
    (∃ k, ((2 : Nat), (2 : Nat)).1 = 2 ^ k ∧
      ((2 : Nat), (2 : Nat)).2 = ((2 : Nat), (2 : Nat)).1) ∧
    totalPaddedArea ((0 : Nat), (0 : Nat)) [Rect.new () 1 1, Rect.new () 1 1] ≤
      ((2 : Nat), (2 : Nat)).1 * ((2 : Nat), (2 : Nat)).1 ∧
    ∀ q, IsLeastPotGeSqrt
        (totalPaddedArea ((0 : Nat), (0 : Nat)) [Rect.new () 1 1, Rect.new () 1 1]) q →
      2 ^ q ≤ ((2 : Nat), (2 : Nat)).1 := by
  have h : solve 4 ((0 : Nat), (0 : Nat)) false [Rect.new () 1 1, Rect.new () 1 1] =
      some (.ok ((2, 2), [⟨(), (0, 0), (1, 1), false⟩, ⟨(), (0, 1), (1, 1), false⟩])) := rfl
  exact solve_ok_pot_ge_sqrt_area (by decide) (by decide) (by decide) h

/-- C5 counterexample: with the non-power-of-two `max_dims = 3`, the
candidate `4 = 2^next_pot(3)` exceeds `max_dims` and `solve` returns a
`4 × 4` canvas, violating `canvas ≤ max_dims`. -/
theorem solve_canvas_exceeds_non_pot_max_dims :
    solve 3 ((0 : Nat), (0 : Nat)) false [Rect.new () 2 3] =
      some (.ok ((4, 4), [⟨(), (0, 0), (2, 3), false⟩])) ∧ ¬ ((4 : Nat) ≤ 3) :=
  ⟨rfl, by decide⟩

/-- C5 witness: for `max_dims = 4` (a power of two) the returned `2 × 2`
canvas respects both the `2^next_pot(max_dims)` bound and `max_dims`. -/
theorem solve_ok_canvas_le_pot_of_max_dims_witness :
    ∃ mp, next_pot 4 = some mp ∧
      4 ≤ 2 ^ mp ∧ (∀ j, 4 ≤ 2 ^ j → mp ≤ j) ∧
      ((2 : Nat), (2 : Nat)).1 ≤ 2 ^ mp ∧ ((2 : Nat), (2 : Nat)).2 ≤ 2 ^ mp ∧
      ((∃ k, 4 = 2 ^ k) →
        ((2 : Nat), (2 : Nat)).1 ≤ 4 ∧ ((2 : Nat), (2 : Nat)).2 ≤ 4) := by
  have h : solve 4 ((0 : Nat), (0 : Nat)) false [Rect.new () 1 1, Rect.new () 1 1] =
      some (.ok ((2, 2), [⟨(), (0, 0), (1, 1), false⟩, ⟨(), (0, 1), (1, 1), false⟩])) := rfl
  exact solve_ok_canvas_le_pot_of_max_dims h

/-- C9: the pre-checks of `Solver::solve` run in wrapping `u32` arithmetic:
two `100000 × 65536` rects under `max_dims = 100000` have true total padded
area `13107200000 > 100000²`, yet `solve` does not return `AreaIsTooBig`
(the wrapped running sum `13107200000 mod 2^32 = 222298112` passes the
wrapped check against `100000² mod 2^32`) and proceeds to placement,
returning `Ok` with a `131072 × 131072` canvas. -/
theorem solve_area_check_wraps :
    100000 * 100000 <
      totalPaddedArea ((0 : Nat), (0 : Nat))
        [Rect.new () 100000 65536, Rect.new () 100000 65536] ∧
    solve 100000 ((0 : Nat), (0 : Nat)) false
        [Rect.new () 100000 65536, Rect.new () 100000 65536] =
      some (.ok ((131072, 131072),
        [⟨(), (0, 0), (100000, 65536), false⟩,
         ⟨(), (0, 65536), (100000, 65536), false⟩])) :=
  ⟨by decide, rfl⟩

/-! ## Exactness of the f32 model on representable values -/

/-- With enough fuel, `log2fuel` is the floor base-2 logarithm. -/
theorem log2fuel_spec : ∀ (f n : Nat), 0 < n → n < 2 ^ f →
    2 ^ log2fuel f n ≤ n ∧ n < 2 ^ (log2fuel f n + 1) := by
  intro f
  induction f with
  | zero => intro n h1 h2; simp at h2; omega
  | succ f ih =>
    intro n h1 h2
    simp only [log2fuel]
    by_cases hn : 2 ≤ n
    · have h3 : 0 < n / 2 := by omega
      have h4 : n / 2 < 2 ^ f := by
        have hp : 2 ^ (f + 1) = 2 * 2 ^ f := by ring
        omega
      obtain ⟨l, u⟩ := ih (n / 2) h3 h4
      rw [if_pos hn]
      have e1 : 2 ^ (log2fuel f (n / 2) + 1) = 2 * 2 ^ log2fuel f (n / 2) := by ring
      have e3 : 2 ^ (log2fuel f (n / 2) + 1 + 1) = 2 * 2 ^ (log2fuel f (n / 2) + 1) := by ring
      omega
    · rw [if_neg hn]
      simp only [pow_zero, pow_one]
      omega

/-- Round-to-nearest of an exact integer ratio is that integer. -/
theorem rhe_exact {n d : Nat} (hd : 0 < d) (hdvd : d ∣ n) : rhe n d = n / d := by
  simp only [rhe]
  rw [Nat.mod_eq_zero_of_dvd hdvd]
  rw [if_pos (by omega)]

/-- Zero rounds to zero. -/
theorem round32_zero : round32 0 = 0 := by
  unfold round32
  rw [if_pos rfl]

/-- Rounding fixes every positive value `n·2^e` whose significand `n` fits in
24 bits (the exponent range covers all values the atlas code produces):
such a value is exactly representable in `f32`. -/
theorem round32_exact {n : ℕ} {e : ℤ} (hnpos : 0 < n) (hn : n < 2 ^ 24)
    (he1 : -60 ≤ e) (he2 : e ≤ 39) :
    round32 ((n : ℚ) * (2 : ℚ) ^ e) = (n : ℚ) * (2 : ℚ) ^ e := by
  set q : ℚ := (n : ℚ) * (2 : ℚ) ^ e with hqdef
  have h2q : (0:ℚ) < 2 := by norm_num
  have h2ne : (2:ℚ) ≠ 0 := by norm_num
  have hqpos : 0 < q := by
    rw [hqdef]
    exact mul_pos (by exact_mod_cast hnpos) (zpow_pos h2q e)
  have hnumpos : 0 < q.num := Rat.num_pos.mpr hqpos
  have hd0le : q.den ≤ 2 ^ 60 := by
    rcases le_or_lt 0 e with hep | hen
    · have hq1 : q = ((n * 2 ^ e.toNat : ℕ) : ℚ) := by
        rw [hqdef]
        push_cast
        rw [← zpow_natCast (2:ℚ) e.toNat, Int.toNat_of_nonneg hep]
      rw [hq1, Rat.den_natCast]
      exact Nat.one_le_two_pow
    · have hq1 : q = Rat.divInt n (2 ^ (-e).toNat) := by
        rw [hqdef, Rat.divInt_eq_div]
        push_cast
        rw [← zpow_natCast (2:ℚ) (-e).toNat, Int.toNat_of_nonneg (by omega : (0:ℤ) ≤ -e)]
        rw [div_eq_mul_inv, ← zpow_neg, neg_neg]
      have hdvd : (q.den : ℤ) ∣ 2 ^ (-e).toNat := by
        rw [hq1]; exact Rat.den_dvd _ _
      have hle : q.den ≤ 2 ^ (-e).toNat := by
        have h := Int.le_of_dvd (by positivity) hdvd
        exact_mod_cast h
      calc q.den ≤ 2 ^ (-e).toNat := hle
        _ ≤ 2 ^ 60 := Nat.pow_le_pow_right (by norm_num) (by omega)
  have hqlt : q < 2 ^ 63 := by
    rw [hqdef]
    calc (n : ℚ) * (2:ℚ) ^ e < 2 ^ 24 * (2:ℚ) ^ e := by
          exact mul_lt_mul_of_pos_right (by exact_mod_cast hn) (zpow_pos h2q e)
      _ ≤ 2 ^ 24 * (2:ℚ) ^ (39 : ℤ) := by
          exact mul_le_mul_of_nonneg_left (zpow_le_zpow_right₀ (by norm_num) he2) (by positivity)
      _ = 2 ^ 63 := by norm_num
  have hd0pos : 0 < q.den := q.pos
  have hn0pos : 0 < q.num.natAbs := Int.natAbs_pos.mpr (ne_of_gt hnumpos)
  have hn0q : ((q.num.natAbs : ℕ) : ℚ) = (q.num : ℚ) := by
    rw [Int.cast_natAbs]
    exact_mod_cast abs_of_nonneg (le_of_lt hnumpos)
  have hq_eq : q = ((q.num.natAbs : ℕ) : ℚ) / ((q.den : ℕ) : ℚ) := by
    rw [hn0q]
    exact (Rat.num_div_den q).symm
  have hn0le : q.num.natAbs < 2 ^ 128 := by
    have hden0 : ((q.den : ℕ) : ℚ) ≠ 0 := Nat.cast_ne_zero.mpr (by omega)
    have h1 : ((q.num.natAbs : ℕ) : ℚ) = q * q.den := by
      have := (div_eq_iff hden0).mp hq_eq.symm
      linarith [this]
    have h2 : ((q.num.natAbs : ℕ) : ℚ) < 2 ^ 63 * 2 ^ 60 := by
      rw [h1]
      have hdq : ((q.den : ℕ) : ℚ) ≤ 2 ^ 60 := by exact_mod_cast hd0le
      have hq0 : (0:ℚ) ≤ q := le_of_lt hqpos
      calc q * ((q.den : ℕ) : ℚ) ≤ q * 2 ^ 60 := mul_le_mul_of_nonneg_left hdq hq0
        _ < 2 ^ 63 * 2 ^ 60 := by
            exact mul_lt_mul_of_pos_right hqlt (by positivity)
    have h3 : ((q.num.natAbs : ℕ) : ℚ) < 2 ^ 128 := lt_trans h2 (by norm_num)
    exact_mod_cast h3
  have hd0lt : q.den < 2 ^ 128 := lt_of_le_of_lt hd0le (by norm_num)
  obtain ⟨ha1, ha2⟩ := log2fuel_spec 128 q.num.natAbs hn0pos hn0le
  obtain ⟨hb1, hb2⟩ := log2fuel_spec 128 q.den hd0pos hd0lt
  unfold round32
  rw [if_neg (ne_of_gt hqpos)]
  simp only []
  rw [if_neg (not_lt.mpr (le_of_lt hnumpos))]
  set a : ℕ := log2fuel 128 q.num.natAbs with hadef
  set b : ℕ := log2fuel 128 q.den with hbdef
  set E : ℤ := if q.den * 2 ^ a ≤ q.num.natAbs * 2 ^ b then (a : ℤ) - b else (a : ℤ) - b - 1
    with hEdef
  have hElb : (2:ℚ) ^ E ≤ q := by
    rw [hEdef]
    split
    · next htest =>
      rw [hq_eq, zpow_sub₀ h2ne, zpow_natCast, zpow_natCast]
      rw [div_le_div_iff₀ (by positivity) (by positivity)]
      have hc : ((q.den * 2 ^ a : ℕ) : ℚ) ≤ ((q.num.natAbs * 2 ^ b : ℕ) : ℚ) :=
        Nat.cast_le.mpr htest
      push_cast at hc
      linarith
    · next htest =>
      have key : q.den * 2 ^ a ≤ q.num.natAbs * 2 ^ (b + 1) := by
        have k2 : q.den * 2 ^ a + 2 ^ a ≤ 2 ^ (b + 1) * 2 ^ a := by
          have hk : (q.den + 1) * 2 ^ a ≤ 2 ^ (b + 1) * 2 ^ a :=
            Nat.mul_le_mul_right _ (by omega)
          rw [add_mul, one_mul] at hk
          exact hk
        calc q.den * 2 ^ a ≤ q.den * 2 ^ a + 2 ^ a := Nat.le_add_right _ _
          _ ≤ 2 ^ (b + 1) * 2 ^ a := k2
          _ = 2 ^ a * 2 ^ (b + 1) := Nat.mul_comm _ _
          _ ≤ q.num.natAbs * 2 ^ (b + 1) := Nat.mul_le_mul_right _ ha1
      have hexp : (a : ℤ) - b - 1 = (a : ℤ) - ((b + 1 : ℕ) : ℤ) := by push_cast; ring
      rw [hq_eq, hexp, zpow_sub₀ h2ne, zpow_natCast, zpow_natCast]
      rw [div_le_div_iff₀ (by positivity) (by positivity)]
      have hc : ((q.den * 2 ^ a : ℕ) : ℚ) ≤ ((q.num.natAbs * 2 ^ (b + 1) : ℕ) : ℚ) :=
        Nat.cast_le.mpr key
      push_cast at hc
      linarith
  have hE23 : E ≤ e + 23 := by
    have h1 : (2:ℚ) ^ E < (2:ℚ) ^ (e + 24) := by
      apply lt_of_le_of_lt hElb
      rw [hqdef]
      calc (n:ℚ) * (2:ℚ) ^ e < 2 ^ 24 * (2:ℚ) ^ e :=
            mul_lt_mul_of_pos_right (by exact_mod_cast hn) (zpow_pos h2q e)
        _ = 2 ^ (e + 24) := by rw [zpow_add₀ h2ne]; rw [mul_comm]; norm_num
    have h2 := (zpow_lt_zpow_iff_right₀ (by norm_num : (1:ℚ) < 2)).mp h1
    omega
  have hKnn : (0:ℤ) ≤ e + 23 - E := by omega
  set K : ℕ := n * 2 ^ (e + 23 - E).toNat with hKdef
  have hKq : (K : ℚ) = q * (2:ℚ) ^ ((23:ℤ) - E) := by
    rw [hKdef, hqdef]
    push_cast
    rw [← zpow_natCast (2:ℚ) (e + 23 - E).toNat, Int.toNat_of_nonneg hKnn]
    rw [mul_assoc, ← zpow_add₀ h2ne]
    congr 2
    omega
  set N : ℕ := q.num.natAbs * 2 ^ ((23:ℤ) - E).toNat with hNdef
  set D : ℕ := q.den * 2 ^ (E - 23).toNat with hDdef
  have hDpos : 0 < D := by rw [hDdef]; positivity
  have hden0 : ((q.den : ℕ) : ℚ) ≠ 0 := Nat.cast_ne_zero.mpr (by omega)
  have hzz : (2:ℚ) ^ ((23:ℤ) - E) * (2:ℚ) ^ (((E - 23).toNat : ℤ)) =
      (2:ℚ) ^ ((((23:ℤ) - E).toNat : ℤ)) := by
    rw [← zpow_add₀ h2ne]
    congr 1
    omega
  have hqd : ((q.num.natAbs : ℕ) : ℚ) = q * ((q.den : ℕ) : ℚ) :=
    (div_eq_iff hden0).mp hq_eq.symm
  have hNDq : (N : ℚ) = (K : ℚ) * (D : ℚ) := by
    rw [hNdef, hDdef, hKq]
    push_cast
    rw [← zpow_natCast (2:ℚ) ((23:ℤ) - E).toNat, ← zpow_natCast (2:ℚ) (E - 23).toNat]
    calc ((q.num.natAbs : ℕ) : ℚ) * (2:ℚ) ^ ((((23:ℤ) - E).toNat : ℤ))
        = (q * ((q.den : ℕ) : ℚ)) * (2:ℚ) ^ ((((23:ℤ) - E).toNat : ℤ)) := by rw [← hqd]
      _ = q * (2:ℚ) ^ ((23:ℤ) - E) * (((q.den : ℕ) : ℚ) * (2:ℚ) ^ (((E - 23).toNat : ℤ))) := by
          rw [← hzz]; ring
  have hND : N = K * D := by exact_mod_cast hNDq
  have hdvd : D ∣ N := Dvd.intro K (by rw [hND]; ring)
  have hmval : rhe N D = K := by
    rw [rhe_exact hDpos hdvd, hND, Nat.mul_div_cancel _ hDpos]
  rw [hmval, one_mul, hKq, mul_assoc, ← zpow_add₀ h2ne]
  rw [show (23:ℤ) - E + (E - 23) = 0 from by ring, zpow_zero, mul_one]

/-- Rounding fixes every fraction `N / 2^k` with `N ≤ 2^k ≤ 2^24`: dyadic
values of a power-of-two canvas no larger than `2^24` are exactly
representable in `f32`. -/
theorem round32_div_pow (N k : ℕ) (hN : N ≤ 2 ^ k) (hk : k ≤ 24) :
    round32 ((N : ℚ) / 2 ^ k) = (N : ℚ) / 2 ^ k := by
  rcases Nat.eq_zero_or_pos N with h0 | hpos
  · subst h0
    rw [Nat.cast_zero, zero_div, round32_zero]
  · have hd : ((N : ℚ) / 2 ^ k) = (N : ℚ) * (2:ℚ) ^ (-(k:ℤ)) := by
      rw [zpow_neg, zpow_natCast, div_eq_mul_inv]
    rcases Nat.lt_or_ge N (2 ^ 24) with hlt | hge
    · rw [hd]
      exact round32_exact hpos hlt (by omega) (by omega)
    · have hNe : N = 2 ^ 24 := by
        have h24 : 2 ^ k ≤ 2 ^ 24 := Nat.pow_le_pow_right (by norm_num) hk
        omega
      have hpk : (2:ℕ) ^ k = 2 ^ 24 := by
        have h24 : (2:ℕ) ^ k ≤ 2 ^ 24 := Nat.pow_le_pow_right (by norm_num) hk
        omega
      have hke : k = 24 := Nat.pow_right_injective (by norm_num) hpk
      subst hNe hke
      have hone : ((2 ^ 24 : ℕ) : ℚ) / 2 ^ 24 = ((1 : ℕ) : ℚ) * (2:ℚ) ^ (0 : ℤ) := by
        push_cast
        norm_num
      rw [hone]
      exact round32_exact (by norm_num) (by norm_num) (by norm_num) (by norm_num)

/-- Integers up to `2^24` survive the `u32 → f32` cast unchanged. -/
theorem roundF32_le24 {n : ℕ} (h : n ≤ 2 ^ 24) : roundF32 n = n := by
  rcases Nat.lt_or_ge n (2 ^ 24) with hlt | hge
  · unfold roundF32
    rw [if_pos hlt]
  · have hn : n = 2 ^ 24 := by omega
    subst hn
    decide

/-- One axis of `from_rect`, computed in the `f32` model, is exact under the
representability provisos: power-of-two canvas `2^k` with `k ≤ 24` and the
rect within the canvas (`x + s ≤ 2^k`).  Both stored corners (`1 - x/2^k`
from `u0` and `1 - (x+s)/2^k` from `u1`) come out exactly. -/
theorem f32_flip_exact (x s k : ℕ) (hk : k ≤ 24) (hxs : x + s ≤ 2 ^ k) :
    f32sub 1 (f32mul ((roundF32 x : ℕ) : ℚ) (f32div 1 ((roundF32 (2 ^ k) : ℕ) : ℚ))) =
      1 - (x : ℚ) / ((2 ^ k : ℕ) : ℚ) ∧
    f32sub 1 (f32add (f32mul ((roundF32 x : ℕ) : ℚ) (f32div 1 ((roundF32 (2 ^ k) : ℕ) : ℚ)))
        (f32mul ((roundF32 s : ℕ) : ℚ) (f32div 1 ((roundF32 (2 ^ k) : ℕ) : ℚ)))) =
      1 - ((x : ℚ) + (s : ℚ)) / ((2 ^ k : ℕ) : ℚ) := by
  have hW24 : 2 ^ k ≤ 2 ^ 24 := Nat.pow_le_pow_right (by norm_num) hk
  have hrW : roundF32 (2 ^ k) = 2 ^ k := roundF32_le24 hW24
  have hrx : roundF32 x = x := roundF32_le24 (by omega)
  have hrs : roundF32 s = s := roundF32_le24 (by omega)
  have hcast : ((2 ^ k : ℕ) : ℚ) = (2:ℚ) ^ k := by push_cast; ring
  have hiw : f32div 1 ((2 ^ k : ℕ) : ℚ) = 1 / ((2 ^ k : ℕ) : ℚ) := by
    unfold f32div
    rw [hcast]
    have h := round32_div_pow 1 k Nat.one_le_two_pow hk
    rw [Nat.cast_one] at h
    exact h
  have hfrac : ∀ N : ℕ, N ≤ 2 ^ k →
      f32mul (N : ℚ) (1 / ((2 ^ k : ℕ) : ℚ)) = (N : ℚ) / ((2 ^ k : ℕ) : ℚ) := by
    intro N hN
    unfold f32mul
    rw [mul_one_div, hcast]
    exact round32_div_pow N k hN hk
  have hone : ∀ N : ℕ, N ≤ 2 ^ k →
      f32sub 1 ((N : ℚ) / ((2 ^ k : ℕ) : ℚ)) = 1 - (N : ℚ) / ((2 ^ k : ℕ) : ℚ) := by
    intro N hN
    unfold f32sub
    have hrw : (1 : ℚ) - (N : ℚ) / ((2 ^ k : ℕ) : ℚ) =
        ((2 ^ k - N : ℕ) : ℚ) / ((2 ^ k : ℕ) : ℚ) := by
      rw [Nat.cast_sub hN, hcast]
      have h2k : (2:ℚ) ^ k ≠ 0 := by positivity
      field_simp
    rw [hrw, hcast]
    exact round32_div_pow (2 ^ k - N) k (by omega) hk
  rw [hrW, hrx, hrs, hiw, hfrac x (by omega), hfrac s (by omega)]
  constructor
  · exact hone x (by omega)
  · have hsum : (x : ℚ) / ((2 ^ k : ℕ) : ℚ) + (s : ℚ) / ((2 ^ k : ℕ) : ℚ) =
        ((x + s : ℕ) : ℚ) / ((2 ^ k : ℕ) : ℚ) := by
      rw [div_add_div_same]
      push_cast
      ring
    unfold f32add
    rw [hsum]
    rw [hcast]
    rw [round32_div_pow (x + s) k hxs hk]
    rw [← hcast]
    rw [hone (x + s) hxs]
    push_cast
    ring

/-! ## Claim theorems for the atlas layer and the loader -/

/-- C6 counterexample: the exact flip formula fails at reachable coordinates
above `2^24`.  `Solver::solve` with `max_dims = 2^25 + 1`, no padding and the
rects `16777217×1` and `16777218×1` returns `Ok((2^26, 2^26))` placing the
second rect unrotated at `x = 16777217`; `from_rect` for that rect stores
`uv_a.x = 0.75` (the `u32 → f32` cast rounds `16777217` to `16777216`,
ties-to-even), while the claimed `1 - x/W = 1 - 16777217/2^26` is
`50331647/67108864 ≠ 3/4`. -/
theorem from_rect_rounds_at_large_coords :
    solve 33554433 (0, 0) false [Rect.new () 16777217 1, Rect.new () 16777218 1] =
      some (.ok ((67108864, 67108864),
        [⟨(), (0, 0), (16777217, 1), false⟩, ⟨(), (16777217, 0), (16777218, 1), false⟩])) ∧
    (TextureRegion.from_rect (⟨(), (16777217, 0), (16777218, 1), false⟩ : Rect Unit)
        67108864 67108864).uv_a.1 = 3 / 4 ∧
    (3 / 4 : ℚ) ≠ 1 - (16777217 : ℚ) / 67108864 := by
  refine ⟨rfl, ?_, by norm_num⟩
  show f32sub 1 (f32mul ((roundF32 16777217 : ℕ) : ℚ)
    (f32div 1 ((roundF32 67108864 : ℕ) : ℚ))) = 3 / 4
  rw [show roundF32 16777217 = 16777216 from by decide,
      show roundF32 67108864 = 67108864 from by decide]
  have hdiv : f32div 1 ((67108864 : ℕ) : ℚ) = ((1:ℕ):ℚ) * (2:ℚ) ^ (-26 : ℤ) := by
    unfold f32div
    have e1 : (1:ℚ) / ((67108864 : ℕ) : ℚ) = ((1:ℕ):ℚ) * (2:ℚ) ^ (-26 : ℤ) := by
      push_cast
      rw [zpow_neg]
      norm_num
    rw [e1]
    exact round32_exact one_pos (by norm_num) (by norm_num) (by norm_num)
  rw [hdiv]
  have hmul : f32mul ((16777216:ℕ):ℚ) (((1:ℕ):ℚ) * (2:ℚ) ^ (-26 : ℤ)) =
      ((1:ℕ):ℚ) * (2:ℚ) ^ (-2 : ℤ) := by
    unfold f32mul
    have e2 : ((16777216:ℕ):ℚ) * (((1:ℕ):ℚ) * (2:ℚ) ^ (-26 : ℤ)) =
        ((1:ℕ):ℚ) * (2:ℚ) ^ (-2 : ℤ) := by
      push_cast
      rw [zpow_neg, zpow_neg]
      norm_num
    rw [e2]
    exact round32_exact one_pos (by norm_num) (by norm_num) (by norm_num)
  rw [hmul]
  unfold f32sub
  have e3 : (1:ℚ) - ((1:ℕ):ℚ) * (2:ℚ) ^ (-2 : ℤ) = ((3:ℕ):ℚ) * (2:ℚ) ^ (-2 : ℤ) := by
    push_cast
    norm_num
  rw [e3]
  rw [round32_exact (by norm_num) (by norm_num) (by norm_num) (by norm_num)]
  push_cast
  norm_num

/-- C6 (amended): `from_rect` computes the flip formulas in `f32`; the stored
corners equal the exact `uv_a = (1 - x/W, 1 - y/H)`,
`uv_b = (1 - (x+w)/W, 1 - (y+h)/H)` whenever every intermediate is
`f32`-representable — the canvas dimensions are powers of two at most `2^24`
on each axis and the rect lies within the canvas.  (Solver canvases are
always powers of two; the bound `2^24` excludes coordinates beyond `f32`
integer precision, where the formula fails per the counterexample.) -/
theorem from_rect_uv_flip {K : Type} (r : Rect K) (W H k m : Nat)
    (hrot : r.rotated = false)
    (hW : W = 2 ^ k) (hk : k ≤ 24) (hH : H = 2 ^ m) (hm : m ≤ 24)
    (hx : r.pos.1 + r.size.1 ≤ W) (hy : r.pos.2 + r.size.2 ≤ H) :
    (TextureRegion.from_rect r W H).uv_a =
      (1 - (r.pos.1 : ℚ) / (W : ℚ), 1 - (r.pos.2 : ℚ) / (H : ℚ)) ∧
    (TextureRegion.from_rect r W H).uv_b =
      (1 - ((r.pos.1 : ℚ) + (r.size.1 : ℚ)) / (W : ℚ),
       1 - ((r.pos.2 : ℚ) + (r.size.2 : ℚ)) / (H : ℚ)) := by
  subst hW hH
  obtain ⟨hu0, hu1⟩ := f32_flip_exact r.pos.1 r.size.1 k hk hx
  obtain ⟨hv0, hv1⟩ := f32_flip_exact r.pos.2 r.size.2 m hm hy
  constructor
  · apply Prod.ext
    · exact hu0
    · exact hv0
  · apply Prod.ext
    · exact hu1
    · exact hv1

/-- C6 witness: the claim's own instance — an unrotated rect at `(0,0)` of
size `(W/2, H/2)` in a canvas `(W,H) = (8,8)` yields `uv_a = (1,1)` and
`uv_b = (0.5, 0.5)`, now through the exact `f32` computation. -/
theorem from_rect_uv_flip_witness :
    (TextureRegion.from_rect (⟨(), (0, 0), (4, 4), false⟩ : Rect Unit) 8 8).uv_a = (1, 1) ∧
    (TextureRegion.from_rect (⟨(), (0, 0), (4, 4), false⟩ : Rect Unit) 8 8).uv_b =
      (1 / 2, 1 / 2) := by
  have h := from_rect_uv_flip (⟨(), (0, 0), (4, 4), false⟩ : Rect Unit) 8 8 3 3 rfl
    (by norm_num) (by norm_num) (by norm_num) (by norm_num) (by norm_num) (by norm_num)
  refine ⟨?_, ?_⟩
  · rw [h.1]
    apply Prod.ext <;> norm_num
  · rw [h.2]
    apply Prod.ext <;> norm_num

/-- C7: adding an entry whose name equals that of an already-registered
entry fails with `NameAlreadyInUse` carrying that name, and the previously
registered entry is untouched: the same lookup still returns it afterward
(the failed `add_entry` pushed nothing). -/
theorem add_entry_duplicate_name (b : AtlasBuilder) (e prior : BuilderEntry)
    (h : b.find_entry e.name = some prior) :
    b.add_entry e = .error (.nameAlreadyInUse e.name) ∧
    b.find_entry e.name = some prior := by
  refine ⟨?_, h⟩
  unfold AtlasBuilder.add_entry
  have hc : (b.find_entry e.name).isSome = true := by rw [h]; rfl
  rw [if_pos hc]

/-- C7 witness: registering `"wood"` twice. -/
theorem add_entry_duplicate_name_witness :
    (AtlasBuilder.mk 1024 (2, 2) true [⟨"wood", (8, 8)⟩]).add_entry ⟨"wood", (4, 4)⟩ =
      .error (.nameAlreadyInUse "wood") ∧
    (AtlasBuilder.mk 1024 (2, 2) true [⟨"wood", (8, 8)⟩]).find_entry "wood" =
      some ⟨"wood", (8, 8)⟩ :=
  add_entry_duplicate_name _ _ _ rfl

/-- C8 counterexample: a not-yet-ready task created by `with_gpu_future` has
`snapshot() = Some(value)`, not `None` — `snapshot` clones the slot without
consulting `is_ready`. -/
theorem snapshot_some_before_ready :
    (Loader.with_gpu_future (0 : Nat)).is_ready = false ∧
    (Loader.with_gpu_future (0 : Nat)).snapshot = some 0 :=
  ⟨rfl, rfl⟩

/-- In every state a `with_gpu_future` loader reaches, the slot holds the
value. -/
theorem FutureEvo.snapshot_eq {T : Type} {v : T} {l : Loader T}
    (h : FutureEvo v l) : l.snapshot = some v := by
  cases h <;> rfl

/-- C8 (amended): `snapshot` returns the current contents of the value slot
without consuming the task (it is a pure read of the slot): when the task is
ready the slot is filled and a copy of the value is returned; but `snapshot`
can also return `Some(value)` before readiness — a `with_gpu_future` task's
slot is filled from creation — and it returns `None` exactly for a
`with_closure` task whose closure has not yet stored its result (which is
also not ready). -/
theorem snapshot_returns_slot_contents {T : Type} (v : T) (l : Loader T)
    (h : FutureEvo v l ∨ ClosureEvo v l) :
    (l.is_ready = true → l.snapshot = some v) ∧
    (FutureEvo v l → l.snapshot = some v) ∧
    (l.snapshot = none → l.is_ready = false ∧ ClosureEvo v l) := by
  refine ⟨?_, fun hf => FutureEvo.snapshot_eq hf, ?_⟩
  · rcases h with h | h
    · cases h with
      | started => intro hr; exact Bool.noConfusion hr
      | flushed => intro _; rfl
    · cases h with
      | spawned => intro hr; exact Bool.noConfusion hr
      | written => intro hr; exact Bool.noConfusion hr
      | done => intro _; rfl
  · rcases h with h | h
    · cases h with
      | started => intro hc; exact absurd hc (by simp [Loader.snapshot, Loader.with_gpu_future])
      | flushed => intro hc; exact absurd hc (by simp [Loader.snapshot])
    · cases h with
      | spawned => intro _; exact ⟨rfl, .spawned⟩
      | written => intro hc; exact absurd hc (by simp [Loader.snapshot])
      | done => intro hc; exact absurd hc (by simp [Loader.snapshot])

/-- C8 witness: the amended statement applied to a fresh `with_gpu_future`
task holding `5`. -/
theorem snapshot_returns_slot_contents_witness :
    ((Loader.with_gpu_future (5 : Nat)).is_ready = true →
      (Loader.with_gpu_future (5 : Nat)).snapshot = some 5) ∧
    (FutureEvo 5 (Loader.with_gpu_future (5 : Nat)) →
      (Loader.with_gpu_future (5 : Nat)).snapshot = some 5) ∧
    ((Loader.with_gpu_future (5 : Nat)).snapshot = none →
      (Loader.with_gpu_future (5 : Nat)).is_ready = false ∧
      ClosureEvo 5 (Loader.with_gpu_future (5 : Nat))) :=
  snapshot_returns_slot_contents 5 (Loader.with_gpu_future 5) (Or.inl .started)

/-- Looking up a freshly appended key in an association list. -/
theorem lookup_append_singleton {Img : Type} :
    ∀ (l : List (String × Img)) (k : String) (v : Img),
      l.lookup k = none → (l ++ [(k, v)]).lookup k = some v := by
  intro l
  induction l with
  | nil =>
    intro k v _
    simp [List.lookup]
  | cons hd t ih =>
    intro k v h
    obtain ⟨b, w⟩ := hd
    rw [List.lookup] at h
    rw [List.cons_append, List.lookup]
    by_cases hkb : (k == b) = true
    · rw [hkb] at h
      exact absurd h (by simp)
    · rw [Bool.not_eq_true] at hkb
      rw [hkb] at h ⊢
      exact ih k v h

/-- C10: `DirectoryImageResolver::get` never returns `None`: whenever it
returns at all (rather than panicking), the result is `Some(region)` and the
key is cached afterward; it panics exactly when the key is uncached and the
file `base_path/key` cannot be read.  Only `AtlasImageResolver::get` can
return `None`, precisely for a name absent from the atlas region map. -/
theorem resolver_get_none_only_from_atlas :
    ∀ (Img : Type) (fs : String → Option Img) (self : DirectoryImageResolver Img)
      (usage : MaterialImageUsage) (key : String),
      (∀ out, DirectoryImageResolver.get fs self usage key = .ok out →
        out.1.isSome = true ∧ (out.2.pooled.lookup key).isSome = true) ∧
      ((∃ e, DirectoryImageResolver.get fs self usage key = .error e) ↔
        self.pooled.lookup key = none ∧ fs (self.base_path ++ "/" ++ key) = none) ∧
      (∀ (a : AtlasImageResolver Img),
        a.get usage key = none ↔ a.regions.lookup key = none) := by
  intro Img fs self usage key
  have hmain :
      (∃ v pooled',
        DirectoryImageResolver.get fs self usage key =
          .ok (some v, ⟨self.base_path, pooled'⟩) ∧ pooled'.lookup key = some v) ∨
      (DirectoryImageResolver.get fs self usage key =
          .error ("No file for path: " ++ (self.base_path ++ "/" ++ key)) ∧
        self.pooled.lookup key = none ∧ fs (self.base_path ++ "/" ++ key) = none) := by
    cases hlk : self.pooled.lookup key with
    | some v =>
      refine Or.inl ⟨v, self.pooled, ?_, hlk⟩
      simp [DirectoryImageResolver.get, hlk]
    | none =>
      cases hfs : fs (self.base_path ++ "/" ++ key) with
      | none =>
        refine Or.inr ⟨?_, rfl, rfl⟩
        simp [DirectoryImageResolver.get, hlk, hfs]
      | some img =>
        have happ := lookup_append_singleton self.pooled key img hlk
        refine Or.inl ⟨img, self.pooled ++ [(key, img)], ?_, happ⟩
        simp [DirectoryImageResolver.get, hlk, hfs, happ]
  refine ⟨?_, ⟨?_, ?_⟩, ?_⟩
  · intro out heq
    rcases hmain with ⟨v, pooled', hok, hl⟩ | ⟨herr, _, _⟩
    · rw [hok] at heq
      have hout : (some v, (⟨self.base_path, pooled'⟩ : DirectoryImageResolver Img)) = out :=
        Except.ok.inj heq
      rw [← hout]
      exact ⟨rfl, by rw [hl]; rfl⟩
    · rw [herr] at heq
      exact absurd heq (by simp)
  · rintro ⟨e, he⟩
    rcases hmain with ⟨v, pooled', hok, _⟩ | ⟨_, h2, h3⟩
    · rw [hok] at he
      exact absurd he (by simp)
    · exact ⟨h2, h3⟩
  · rintro ⟨h1, h2⟩
    refine ⟨"No file for path: " ++ (self.base_path ++ "/" ++ key), ?_⟩
    simp [DirectoryImageResolver.get, h1, h2]
  · intro a
    exact Iff.rfl

/-- C10 witness: resolving an uncached key against a readable file system
yields a `Some` result and caches the key. -/
theorem resolver_get_none_only_from_atlas_witness :
    (some (7 : Nat),
      (⟨"assets", [("tex.png", 7)]⟩ : DirectoryImageResolver Nat)).1.isSome = true ∧
    (((some (7 : Nat),
        (⟨"assets", [("tex.png", 7)]⟩ : DirectoryImageResolver Nat)).2.pooled.lookup
      "tex.png").isSome = true) :=
  (resolver_get_none_only_from_atlas Nat (fun _ => some 7) ⟨"assets", []⟩
    .diffuse "tex.png").1 (some 7, ⟨"assets", [("tex.png", 7)]⟩) rfl

end VulkanoAtlas
